import Mathlib

/-!
Verification of the page-generator `generate.py` of PW-Bygger-Grejer.

The Python code is shallowly embedded over `List Char` / `String`:
pure string functions (`slugify`, `confirm`, `html.escape`, `render_html`)
become Lean functions, and the interactive `main` becomes a function of the
input script and of the (pre-existing) filesystem state, returning the list
of filesystem writes it performs together with its outcome.
-/

set_option maxRecDepth 40000

/-- The double-quote character. -/
def qm : Char := Char.ofNat 34

/-- The apostrophe character. -/
def apos : Char := Char.ofNat 39

/-- Whitespace as recognised by Python's `str.strip()` / regex `\s`
(restricted to the ASCII whitespace characters, the only ones this tool's
data can contain). -/
def pyIsSpace (c : Char) : Bool :=
  c = ' ' || c = '\t' || c = '\n' || c = '\r' || c = '\x0b' || c = '\x0c'

/-- Python `str.lower`, restricted to ASCII letters and the three Swedish
capitals Å/Ä/Ö that `slugify` treats specially (the only non-ASCII letters
this tool handles). -/
def lowerChar : Char → Char
  | 'A' => 'a' | 'B' => 'b' | 'C' => 'c' | 'D' => 'd' | 'E' => 'e' | 'F' => 'f'
  | 'G' => 'g' | 'H' => 'h' | 'I' => 'i' | 'J' => 'j' | 'K' => 'k' | 'L' => 'l'
  | 'M' => 'm' | 'N' => 'n' | 'O' => 'o' | 'P' => 'p' | 'Q' => 'q' | 'R' => 'r'
  | 'S' => 's' | 'T' => 't' | 'U' => 'u' | 'V' => 'v' | 'W' => 'w' | 'X' => 'x'
  | 'Y' => 'y' | 'Z' => 'z'
  | 'Å' => 'å' | 'Ä' => 'ä' | 'Ö' => 'ö'
  | c => c

/-- The chained `value.replace("å","a").replace("ä","a").replace("ö","o")`
of `slugify`, acting characterwise (each pattern is a single character). -/
def accentChar : Char → Char
  | 'å' => 'a' | 'ä' => 'a' | 'ö' => 'o'
  | c => c

/-- Membership in the slug alphabet `[a-z0-9_]`. -/
def isSlugChar (c : Char) : Bool :=
  (97 ≤ c.toNat && c.toNat ≤ 122) || (48 ≤ c.toNat && c.toNat ≤ 57) || c.toNat = 95

/-- Remove the trailing run of characters satisfying `p`. -/
def stripTailP (p : Char → Bool) (l : List Char) : List Char :=
  l.foldr (fun c acc => if p c && acc.isEmpty then [] else c :: acc) []

/-- Python `str.strip()`: drop whitespace from both ends. -/
def pyStrip (l : List Char) : List Char :=
  stripTailP pyIsSpace (l.dropWhile pyIsSpace)

/-- `re.sub(r"\s+", "_", value)`: replace each maximal whitespace run by a
single underscore. -/
def subWs : List Char → List Char
  | [] => []
  | [c] => if pyIsSpace c then ['_'] else [c]
  | c :: d :: rest =>
    if pyIsSpace c then
      if pyIsSpace d then subWs (d :: rest) else '_' :: subWs (d :: rest)
    else c :: subWs (d :: rest)

/-- `re.sub(r"_+", "_", value)`: collapse each run of underscores to one. -/
def collapseUs : List Char → List Char
  | [] => []
  | [c] => [c]
  | c :: d :: rest =>
    if c = '_' && d = '_' then collapseUs (d :: rest)
    else c :: collapseUs (d :: rest)

/-- Python `value.strip("_")`: drop underscores from both ends. -/
def stripUs (l : List Char) : List Char :=
  stripTailP (fun c => c = '_') (l.dropWhile (fun c => c = '_'))

/-- Characterwise body of `slugify` (source lines 33-39). -/
def slugifyChars (l : List Char) : List Char :=
  stripUs (collapseUs (List.filter isSlugChar
    (subWs (List.map accentChar (List.map lowerChar (pyStrip l))))))

/-- `slugify` from `generate.py`. -/
def slugify (s : String) : String :=
  ⟨slugifyChars s.data⟩

/-- The trimmed-and-lowercased form of a console response, as computed by
`confirm` (`input(...).strip().lower()`). -/
def confirmKey (s : String) : List Char :=
  List.map lowerChar (pyStrip s.data)

/-- `confirm` from `generate.py`: the response is affirmative iff its
trimmed, lowercased form is one of `j`, `ja`, `y`, `yes`. -/
def confirm (s : String) : Bool :=
  confirmKey s = "j".data || confirmKey s = "ja".data ||
    confirmKey s = "y".data || confirmKey s = "yes".data

/-- No two adjacent underscores anywhere in the list. -/
def noAdjUs : List Char → Bool
  | c :: d :: t => !(c = '_' && d = '_') && noAdjUs (d :: t)
  | _ => true

theorem lowerChar_slug (c : Char) (h : isSlugChar c = true) : lowerChar c = c := by
  unfold lowerChar
  split <;> simp_all [isSlugChar]

theorem accentChar_slug (c : Char) (h : isSlugChar c = true) : accentChar c = c := by
  unfold accentChar
  split <;> simp_all [isSlugChar]

theorem accentChar_of_ne (c : Char) (h1 : c ≠ 'å') (h2 : c ≠ 'ä') (h3 : c ≠ 'ö') :
    accentChar c = c := by
  unfold accentChar
  split <;> simp_all

theorem accent_lower_accent (c : Char) :
    accentChar (lowerChar (accentChar c)) = accentChar (lowerChar c) := by
  by_cases h1 : c = 'å'
  · subst h1; decide
  by_cases h2 : c = 'ä'
  · subst h2; decide
  by_cases h3 : c = 'ö'
  · subst h3; decide
  rw [accentChar_of_ne c h1 h2 h3]

theorem pyIsSpace_accent (c : Char) : pyIsSpace (accentChar c) = pyIsSpace c := by
  unfold accentChar
  split <;> first | rfl | decide

theorem slug_not_space (c : Char) (h : isSlugChar c = true) : pyIsSpace c = false := by
  unfold pyIsSpace
  simp only [Bool.or_eq_false_iff, decide_eq_false_iff_not]
  refine ⟨⟨⟨⟨⟨?_, ?_⟩, ?_⟩, ?_⟩, ?_⟩, ?_⟩ <;> rintro rfl <;> simp [isSlugChar] at h

theorem map_id_of {f : Char → Char} {l : List Char} (h : ∀ c ∈ l, f c = c) :
    List.map f l = l := by
  induction l with
  | nil => rfl
  | cons c t ih =>
    simp only [List.map_cons, h c (by simp), ih fun x hx => h x (by simp [hx])]

/-! ### `stripTailP` and `pyStrip` lemmas -/

theorem stripTailP_cons (p : Char → Bool) (c : Char) (l : List Char) :
    stripTailP p (c :: l) =
      if p c && (stripTailP p l).isEmpty then [] else c :: stripTailP p l := rfl

theorem mem_stripTailP {p : Char → Bool} {c : Char} {l : List Char}
    (h : c ∈ stripTailP p l) : c ∈ l := by
  induction l with
  | nil => simpa [stripTailP] using h
  | cons d t ih =>
    rw [stripTailP_cons] at h
    by_cases hc : (p d && (stripTailP p t).isEmpty) = true
    · rw [if_pos hc] at h; simp at h
    · rw [if_neg hc] at h
      rcases List.mem_cons.1 h with h | h
      · simp [h]
      · simp [ih h]

theorem stripTailP_eq_self {p : Char → Bool} {l : List Char}
    (h : ∀ c ∈ l, p c = false) : stripTailP p l = l := by
  induction l with
  | nil => rfl
  | cons c t ih =>
    rw [stripTailP_cons, ih fun x hx => h x (by simp [hx]), h c (by simp)]
    simp

theorem stripTailP_eq_nil {p : Char → Bool} {l : List Char}
    (h : ∀ c ∈ l, p c = true) : stripTailP p l = [] := by
  induction l with
  | nil => rfl
  | cons c t ih =>
    rw [stripTailP_cons, ih fun x hx => h x (by simp [hx]), h c (by simp)]
    simp

theorem head?_stripTailP {p : Char → Bool} {l : List Char} :
    stripTailP p l = [] ∨ (stripTailP p l).head? = l.head? := by
  cases l with
  | nil => exact Or.inl rfl
  | cons c t =>
    rw [stripTailP_cons]
    split
    · exact Or.inl rfl
    · exact Or.inr rfl

theorem getLast?_stripTailP {p : Char → Bool} {l : List Char} {c : Char}
    (h : (stripTailP p l).getLast? = some c) : p c = false := by
  induction l with
  | nil => simp [stripTailP] at h
  | cons d t ih =>
    rw [stripTailP_cons] at h
    split at h
    · simp at h
    · rename_i hcond
      rcases hy : stripTailP p t with _ | ⟨e, y⟩
      · rw [hy] at h hcond
        simp at h hcond
        rw [← h]
        simpa using hcond
      · rw [hy] at h
        rw [List.getLast?_cons_cons] at h
        exact ih (hy ▸ h)

theorem head_dropWhile_not {p : Char → Bool} {l : List Char} {c : Char}
    (h : (l.dropWhile p).head? = some c) : p c = false := by
  induction l with
  | nil => simp at h
  | cons d t ih =>
    rw [List.dropWhile_cons] at h
    split at h
    · exact ih h
    · simp_all

theorem stripTailP_map {p : Char → Bool} {f : Char → Char} {l : List Char} :
    stripTailP p (List.map f l) = List.map f (stripTailP (fun c => p (f c)) l) := by
  induction l with
  | nil => rfl
  | cons c t ih =>
    rw [List.map_cons, stripTailP_cons, stripTailP_cons, ih]
    have hie : (List.map f (stripTailP (fun c => p (f c)) t)).isEmpty
        = (stripTailP (fun c => p (f c)) t).isEmpty := by
      cases stripTailP (fun c => p (f c)) t <;> rfl
    rw [hie]
    split <;> simp

theorem mem_pyStrip {c : Char} {l : List Char} (h : c ∈ pyStrip l) : c ∈ l := by
  have := mem_stripTailP h
  exact (List.dropWhile_sublist pyIsSpace).subset this

theorem pyStrip_eq_self {l : List Char} (h : ∀ c ∈ l, pyIsSpace c = false) :
    pyStrip l = l := by
  unfold pyStrip
  have hd : l.dropWhile pyIsSpace = l := by
    cases l with
    | nil => rfl
    | cons c t => rw [List.dropWhile_cons, h c (by simp)]; simp
  rw [hd, stripTailP_eq_self h]

theorem pyStrip_eq_nil {l : List Char} (h : ∀ c ∈ l, pyIsSpace c = true) :
    pyStrip l = [] := by
  unfold pyStrip
  rw [List.dropWhile_eq_nil_iff.2 fun x hx => by simp [h x hx]]
  rfl

/-! ### `subWs` lemmas -/

theorem mem_subWs {c : Char} {l : List Char} (h : c ∈ subWs l) :
    c = '_' ∨ (c ∈ l ∧ pyIsSpace c = false) := by
  induction l with
  | nil => simp [subWs] at h
  | cons d t ih =>
    cases t with
    | nil =>
      unfold subWs at h
      by_cases hd : pyIsSpace d = true
      · rw [if_pos hd] at h
        simp at h
        exact Or.inl h
      · rw [if_neg hd] at h
        simp at h
        subst h
        exact Or.inr ⟨by simp, by simpa using hd⟩
    | cons e t2 =>
      unfold subWs at h
      by_cases hd : pyIsSpace d = true
      · rw [if_pos hd] at h
        by_cases he : pyIsSpace e = true
        · rw [if_pos he] at h
          rcases ih h with h1 | ⟨h1, h2⟩
          · exact Or.inl h1
          · exact Or.inr ⟨List.mem_cons_of_mem d h1, h2⟩
        · rw [if_neg he] at h
          rcases List.mem_cons.1 h with h | h
          · exact Or.inl h
          · rcases ih h with h1 | ⟨h1, h2⟩
            · exact Or.inl h1
            · exact Or.inr ⟨List.mem_cons_of_mem d h1, h2⟩
      · rw [if_neg hd] at h
        rcases List.mem_cons.1 h with h | h
        · subst h
          exact Or.inr ⟨by simp, by simpa using hd⟩
        · rcases ih h with h1 | ⟨h1, h2⟩
          · exact Or.inl h1
          · exact Or.inr ⟨List.mem_cons_of_mem d h1, h2⟩

theorem subWs_eq_self {l : List Char} (h : ∀ c ∈ l, pyIsSpace c = false) :
    subWs l = l := by
  induction l with
  | nil => rfl
  | cons d t ih =>
    cases t with
    | nil => unfold subWs; rw [h d (by simp)]; simp
    | cons e t2 =>
      unfold subWs
      rw [h d (by simp), ih fun x hx => h x (by simp [hx])]
      simp

/-! ### `collapseUs` lemmas -/

theorem mem_collapseUs {c : Char} {l : List Char} (h : c ∈ collapseUs l) : c ∈ l := by
  induction l with
  | nil => simpa [collapseUs] using h
  | cons d t ih =>
    cases t with
    | nil => simpa [collapseUs] using h
    | cons e t2 =>
      unfold collapseUs at h
      by_cases hde : (decide (d = '_') && decide (e = '_')) = true
      · rw [if_pos hde] at h
        exact List.mem_cons_of_mem d (ih h)
      · rw [if_neg hde] at h
        rcases List.mem_cons.1 h with h | h
        · simp [h]
        · exact List.mem_cons_of_mem d (ih h)

theorem head?_collapseUs (d : Char) (t : List Char) :
    (collapseUs (d :: t)).head? = some d := by
  induction t generalizing d with
  | nil => rfl
  | cons e t2 ih =>
    unfold collapseUs
    split
    · rename_i hde
      rw [ih e]
      simp only [Bool.and_eq_true, decide_eq_true_eq] at hde
      rw [hde.1, hde.2]
    · rfl

theorem noAdjUs_collapseUs (l : List Char) : noAdjUs (collapseUs l) = true := by
  induction l with
  | nil => rfl
  | cons d t ih =>
    cases t with
    | nil => rfl
    | cons e t2 =>
      unfold collapseUs
      split
      · exact ih
      · rename_i hde
        have hh := head?_collapseUs e t2
        rcases hy : collapseUs (e :: t2) with _ | ⟨f, y⟩
        · simp [hy] at hh
        · rw [hy] at ih hh
          simp only [List.head?_cons, Option.some.injEq] at hh
          subst hh
          unfold noAdjUs
          simp_all
          tauto

theorem collapseUs_eq_self {l : List Char} (h : noAdjUs l = true) :
    collapseUs l = l := by
  induction l with
  | nil => rfl
  | cons d t ih =>
    cases t with
    | nil => rfl
    | cons e t2 =>
      unfold noAdjUs at h
      simp only [Bool.and_eq_true] at h
      unfold collapseUs
      have hx : ¬((decide (d = '_') && decide (e = '_')) = true) := by
        intro hc
        simp only [Bool.and_eq_true, decide_eq_true_eq] at hc
        have h1 := h.1
        rw [hc.1, hc.2] at h1
        simp at h1
      rw [ih h.2, if_neg hx]

theorem noAdjUs_tail {c : Char} {t : List Char} (h : noAdjUs (c :: t) = true) :
    noAdjUs t = true := by
  cases t with
  | nil => rfl
  | cons d t2 => unfold noAdjUs at h; simp only [Bool.and_eq_true] at h; exact h.2

theorem noAdjUs_cons_of {c : Char} {y : List Char} (hy : noAdjUs y = true)
    (hhd : ∀ d, y.head? = some d → (c = '_' && d = '_') = false) :
    noAdjUs (c :: y) = true := by
  cases y with
  | nil => rfl
  | cons d t =>
    unfold noAdjUs
    rw [hy, hhd d rfl]
    rfl

theorem noAdjUs_dropWhile {p : Char → Bool} {l : List Char} (h : noAdjUs l = true) :
    noAdjUs (l.dropWhile p) = true := by
  induction l with
  | nil => rfl
  | cons c t ih =>
    rw [List.dropWhile_cons]
    split
    · exact ih (noAdjUs_tail h)
    · exact h

theorem noAdjUs_stripTailP {p : Char → Bool} {l : List Char} (h : noAdjUs l = true) :
    noAdjUs (stripTailP p l) = true := by
  induction l with
  | nil => rfl
  | cons c t ih =>
    rw [stripTailP_cons]
    split
    · rfl
    · refine noAdjUs_cons_of (ih (noAdjUs_tail h)) fun d hd => ?_
      rcases @head?_stripTailP p t with hnil | hhd
      · rw [hnil] at hd; simp at hd
      · rw [hhd] at hd
        cases t with
        | nil => simp at hd
        | cons e t2 =>
          simp only [List.head?_cons, Option.some.injEq] at hd
          subst hd
          unfold noAdjUs at h
          simp only [Bool.and_eq_true] at h
          have h1 : ¬c = '_' ∨ ¬e = '_' := by simpa using h.1
          simp only [Bool.and_eq_false_iff, decide_eq_false_iff_not]
          tauto

/-! ### The slug invariants and the fixpoint property -/

theorem slugifyChars_mem {c : Char} {l : List Char} (h : c ∈ slugifyChars l) :
    isSlugChar c = true := by
  unfold slugifyChars stripUs at h
  have h2 := mem_stripTailP h
  have h3 := (List.dropWhile_sublist (fun c => decide (c = '_'))).subset h2
  have h4 := mem_collapseUs h3
  exact (List.mem_filter.1 h4).2

theorem slugifyChars_noAdj (l : List Char) : noAdjUs (slugifyChars l) = true := by
  unfold slugifyChars stripUs
  exact noAdjUs_stripTailP (noAdjUs_dropWhile (noAdjUs_collapseUs _))

theorem slugifyChars_head (l : List Char) :
    (slugifyChars l).head? ≠ some '_' := by
  unfold slugifyChars stripUs
  intro h
  rcases @head?_stripTailP (fun c => decide (c = '_'))
      ((collapseUs (List.filter isSlugChar
        (subWs (List.map accentChar (List.map lowerChar (pyStrip l)))))).dropWhile
        (fun c => decide (c = '_'))) with hnil | hhd
  · rw [hnil] at h; simp at h
  · rw [hhd] at h
    have := head_dropWhile_not h
    simp at this

theorem slugifyChars_last (l : List Char) :
    (slugifyChars l).getLast? ≠ some '_' := by
  unfold slugifyChars stripUs
  intro h
  have := getLast?_stripTailP h
  simp at this

theorem stripTailP_eq_self_of_last {p : Char → Bool} {l : List Char}
    (h : ∀ c, l.getLast? = some c → p c = false) : stripTailP p l = l := by
  induction l with
  | nil => rfl
  | cons c t ih =>
    cases ht : t with
    | nil =>
      subst ht
      rw [stripTailP_cons]
      simp [stripTailP, h c (by simp)]
    | cons e t2 =>
      subst ht
      rw [stripTailP_cons, ih fun x hx => h x (by rwa [List.getLast?_cons_cons])]
      simp

theorem slugifyChars_fix {l : List Char} (h1 : ∀ c ∈ l, isSlugChar c = true)
    (h2 : noAdjUs l = true) (h3 : l.head? ≠ some '_') (h4 : l.getLast? ≠ some '_') :
    slugifyChars l = l := by
  have hns : ∀ c ∈ l, pyIsSpace c = false := fun c hc => slug_not_space c (h1 c hc)
  unfold slugifyChars
  rw [pyStrip_eq_self hns, map_id_of fun c hc => lowerChar_slug c (h1 c hc),
    map_id_of fun c hc => accentChar_slug c (h1 c hc), subWs_eq_self hns,
    List.filter_eq_self.2 fun c hc => h1 c hc, collapseUs_eq_self h2]
  unfold stripUs
  have hd : l.dropWhile (fun c => c = '_') = l := by
    cases l with
    | nil => rfl
    | cons c t =>
      rw [List.dropWhile_cons]
      have : c ≠ '_' := by simpa using h3
      simp [this]
  rw [hd]
  exact stripTailP_eq_self_of_last fun c hc => by
    simp only [decide_eq_false_iff_not]
    intro hh
    subst hh
    exact h4 hc

theorem slugifyChars_accentFold (l : List Char) :
    slugifyChars (List.map accentChar l) = slugifyChars l := by
  unfold slugifyChars
  have hstrip : pyStrip (List.map accentChar l) = List.map accentChar (pyStrip l) := by
    unfold pyStrip
    rw [List.dropWhile_map, stripTailP_map]
    have hp : (fun c => pyIsSpace (accentChar c)) = pyIsSpace := funext pyIsSpace_accent
    simp only [Function.comp_def, hp]
  rw [hstrip]
  have hmaps : List.map accentChar (List.map lowerChar (List.map accentChar (pyStrip l)))
      = List.map accentChar (List.map lowerChar (pyStrip l)) := by
    simp only [List.map_map]
    exact List.map_congr_left fun c _ => accent_lower_accent c
  rw [hmaps]

theorem slugifyChars_nil_of_space {l : List Char} (h : ∀ c ∈ l, pyIsSpace c = true) :
    slugifyChars l = [] := by
  unfold slugifyChars
  rw [pyStrip_eq_nil h]
  rfl

theorem slugifyChars_nil_of_noSlug {l : List Char}
    (h : ∀ c ∈ l, isSlugChar (accentChar (lowerChar c)) = false) : slugifyChars l = [] := by
  unfold slugifyChars
  have hmm : ∀ c ∈ List.map accentChar (List.map lowerChar (pyStrip l)),
      isSlugChar c = false := by
    intro c hc
    simp only [List.map_map, List.mem_map] at hc
    obtain ⟨d, hd, rfl⟩ := hc
    exact h d (mem_pyStrip hd)
  have hall2 : ∀ c ∈ collapseUs (List.filter isSlugChar
      (subWs (List.map accentChar (List.map lowerChar (pyStrip l))))), c = '_' := by
    intro c hc
    have h1 := List.mem_filter.1 (mem_collapseUs hc)
    rcases mem_subWs h1.1 with h2 | ⟨h2, _⟩
    · exact h2
    · rw [hmm c h2] at h1
      exact absurd h1.2 (by simp)
  unfold stripUs
  rw [List.dropWhile_eq_nil_iff.2 fun x hx => by simp [hall2 x hx]]
  rfl

/-- **C2.** `slugify` maps the accented characters å/ä/ö to a/a/o, its result
contains only characters of `[a-z0-9_]` with no leading, trailing or repeated
underscores, and an input that is entirely whitespace, or entirely characters
that fall outside `[a-z0-9_]` after the lowercasing / accent-replacement
steps, normalizes to the empty string. -/
theorem slugify_normalizer_spec :
    (slugify "å" = "a" ∧ slugify "ä" = "a" ∧ slugify "ö" = "o")
    ∧ (∀ s : String, slugify ⟨s.data.map accentChar⟩ = slugify s)
    ∧ (∀ s : String, ∀ c ∈ (slugify s).data, isSlugChar c = true)
    ∧ (∀ s : String, noAdjUs (slugify s).data = true
        ∧ (slugify s).data.head? ≠ some '_' ∧ (slugify s).data.getLast? ≠ some '_')
    ∧ (∀ s : String,
        ((∀ c ∈ s.data, pyIsSpace c = true)
          ∨ (∀ c ∈ s.data, isSlugChar (accentChar (lowerChar c)) = false)) →
        slugify s = "") := by
  refine ⟨by decide, ?_, ?_, ?_, ?_⟩
  · intro s
    unfold slugify
    rw [show (⟨s.data.map accentChar⟩ : String).data = s.data.map accentChar from rfl,
      slugifyChars_accentFold]
  · intro s c hc
    exact slugifyChars_mem hc
  · intro s
    exact ⟨slugifyChars_noAdj _, slugifyChars_head _, slugifyChars_last _⟩
  · intro s h
    unfold slugify
    rcases h with h | h
    · rw [slugifyChars_nil_of_space h]
    · rw [slugifyChars_nil_of_noSlug h]

/-- Witness for C2: concrete instance of the hypothesis-bearing conjunct
(a string of whitespace and punctuation normalizes to the empty string). -/
theorem slugify_normalizer_spec_witness :
    (∀ c ∈ ("  ?!-  " : String).data, isSlugChar (accentChar (lowerChar c)) = false)
    ∧ slugify "  ?!-  " = "" :=
  ⟨by decide, slugify_normalizer_spec.2.2.2.2 "  ?!-  " (Or.inr (by decide))⟩

/-- **C3, counterexample.** On the spec's own example input, `slugify` does
not return `"vag_lampa_2"`: the hyphen is removed by the
`[^a-z0-9_]` filter, not turned into an underscore. -/
theorem slugify_vaglampa_counterexample :
    slugify "  Väg-Lampa 2!! " ≠ "vag_lampa_2" := by decide

/-- **C3, amended.** `slugify "  Väg-Lampa 2!! "` returns `"vaglampa_2"`
(the hyphen is deleted, so no underscore separates `vag` from `lampa`). -/
theorem slugify_vaglampa : slugify "  Väg-Lampa 2!! " = "vaglampa_2" := by decide

/-- **C9.** `confirm` returns true iff the trimmed, lowercased response is one
of `j`, `ja`, `y`, `yes`; those four in any letter case yield true, and other
responses (including the empty string, `no`, `n`, `maybe`) yield false. -/
theorem confirm_spec :
    (∀ s : String, confirm s = true ↔
      (confirmKey s = "j".data ∨ confirmKey s = "ja".data ∨
        confirmKey s = "y".data ∨ confirmKey s = "yes".data))
    ∧ (confirm "j" = true ∧ confirm "J" = true
        ∧ confirm "ja" = true ∧ confirm "JA" = true ∧ confirm "Ja" = true
        ∧ confirm "jA" = true ∧ confirm "y" = true ∧ confirm "Y" = true
        ∧ confirm "yes" = true ∧ confirm "YES" = true ∧ confirm "Yes" = true
        ∧ confirm "yEs" = true)
    ∧ (confirm "" = false ∧ confirm "no" = false
        ∧ confirm "n" = false ∧ confirm "maybe" = false) := by
  refine ⟨fun s => ?_, by decide, by decide⟩
  unfold confirm
  simp [Bool.or_eq_true, decide_eq_true_eq, or_assoc]

/-- **C10.** `slugify` is idempotent: re-normalizing a generated slug never
changes it. -/
theorem slugify_idempotent (s : String) : slugify (slugify s) = slugify s := by
  unfold slugify
  have : (⟨slugifyChars s.data⟩ : String).data = slugifyChars s.data := rfl
  rw [this]
  rw [slugifyChars_fix (fun c hc => slugifyChars_mem hc) (slugifyChars_noAdj _)
    (slugifyChars_head _) (slugifyChars_last _)]

/-! ### Python `html.escape` (called with `quote=True` by the renderer) -/

/-- One character's expansion under `html.escape`: the stdlib replaces `&`,
`<`, `>`, `"`, `'` (in that order) by their entities; since every replacement
is a single character and no entity contains a later-replaced character, the
sequential `str.replace` chain acts characterwise. -/
def escapeChar (c : Char) : List Char :=
  if c = '&' then "&amp;".data
  else if c = '<' then "&lt;".data
  else if c = '>' then "&gt;".data
  else if c = qm then "&quot;".data
  else if c = apos then "&#x27;".data
  else [c]

/-- `html.escape` on a character list. -/
def htmlEscape : List Char → List Char
  | [] => []
  | c :: t => escapeChar c ++ htmlEscape t

theorem htmlEscape_append (a b : List Char) :
    htmlEscape (a ++ b) = htmlEscape a ++ htmlEscape b := by
  induction a with
  | nil => rfl
  | cons c t ih => simp [htmlEscape, ih]

/-- Any character of an escaped string is different from the four
raw characters `<`, `>`, `"`, `'`. -/
theorem htmlEscape_raw_free {c : Char} {t : List Char} (h : c ∈ htmlEscape t) :
    c ≠ '<' ∧ c ≠ '>' ∧ c ≠ qm ∧ c ≠ apos := by
  induction t with
  | nil => simp [htmlEscape] at h
  | cons d t ih =>
    unfold htmlEscape at h
    rcases List.mem_append.1 h with hc | hc
    · unfold escapeChar at hc
      by_cases h1 : d = '&'
      · rw [if_pos h1] at hc
        exact (by decide : ∀ x ∈ "&amp;".data, x ≠ '<' ∧ x ≠ '>' ∧ x ≠ qm ∧ x ≠ apos) c hc
      rw [if_neg h1] at hc
      by_cases h2 : d = '<'
      · rw [if_pos h2] at hc
        exact (by decide : ∀ x ∈ "&lt;".data, x ≠ '<' ∧ x ≠ '>' ∧ x ≠ qm ∧ x ≠ apos) c hc
      rw [if_neg h2] at hc
      by_cases h3 : d = '>'
      · rw [if_pos h3] at hc
        exact (by decide : ∀ x ∈ "&gt;".data, x ≠ '<' ∧ x ≠ '>' ∧ x ≠ qm ∧ x ≠ apos) c hc
      rw [if_neg h3] at hc
      by_cases h4 : d = qm
      · rw [if_pos h4] at hc
        exact (by decide : ∀ x ∈ "&quot;".data, x ≠ '<' ∧ x ≠ '>' ∧ x ≠ qm ∧ x ≠ apos) c hc
      rw [if_neg h4] at hc
      by_cases h5 : d = apos
      · rw [if_pos h5] at hc
        exact (by decide : ∀ x ∈ "&#x27;".data, x ≠ '<' ∧ x ≠ '>' ∧ x ≠ qm ∧ x ≠ apos) c hc
      rw [if_neg h5] at hc
      simp only [List.mem_singleton] at hc
      subst hc
      exact ⟨h2, h3, h4, h5⟩
    · exact ih hc

/-! ### Decimal rendering of step indices (Python `str(index)`) -/

/-- Fuel-driven decimal digits of a positive number (most significant first). -/
def natDigitsAux : Nat → Nat → List Char
  | 0, _ => []
  | _ + 1, 0 => []
  | fuel + 1, n + 1 =>
    natDigitsAux fuel ((n + 1) / 10) ++ [Nat.digitChar ((n + 1) % 10)]

/-- Python `str(n)` for a natural number. -/
def natDigits (n : Nat) : List Char :=
  if n = 0 then ['0'] else natDigitsAux n n

/-- Decimal value of a digit string (used to read back a step index). -/
def digitsVal (l : List Char) : Nat :=
  l.foldl (fun acc c => 10 * acc + (c.toNat - 48)) 0

theorem digitsVal_append_digit (l : List Char) (c : Char) :
    digitsVal (l ++ [c]) = 10 * digitsVal l + (c.toNat - 48) := by
  unfold digitsVal
  rw [List.foldl_append]
  rfl

theorem digitChar_toNat {d : Nat} (h : d < 10) : (Nat.digitChar d).toNat - 48 = d := by
  interval_cases d <;> rfl

theorem digitChar_isDigit {d : Nat} (h : d < 10) : (Nat.digitChar d).isDigit = true := by
  interval_cases d <;> rfl

theorem natDigitsAux_zero (fuel : Nat) : natDigitsAux fuel 0 = [] := by
  cases fuel <;> rfl

theorem natDigitsAux_val (fuel : Nat) :
    ∀ n, 0 < n → n ≤ fuel → digitsVal (natDigitsAux fuel n) = n := by
  induction fuel with
  | zero => intro n h0 hle; omega
  | succ fuel ih =>
    intro n h0 hle
    match n, h0 with
    | m + 1, _ =>
      unfold natDigitsAux
      rw [digitsVal_append_digit, digitChar_toNat (Nat.mod_lt _ (by norm_num))]
      rcases Nat.eq_zero_or_pos ((m + 1) / 10) with h10 | h10
      · rw [h10, natDigitsAux_zero]
        have hlt10 : m + 1 < 10 := by
          by_contra hge
          have h1 : 1 ≤ (m + 1) / 10 :=
            (Nat.one_le_div_iff (by norm_num)).2 (Nat.le_of_not_lt hge)
          omega
        have : (m + 1) % 10 = m + 1 := Nat.mod_eq_of_lt hlt10
        simp [digitsVal, this]
      · have hlt : (m + 1) / 10 < m + 1 := Nat.div_lt_self (by omega) (by norm_num)
        rw [ih _ h10 (by omega)]
        omega

theorem natDigits_val (n : Nat) : digitsVal (natDigits n) = n := by
  unfold natDigits
  rcases Nat.eq_zero_or_pos n with h | h
  · subst h; rfl
  · rw [if_neg (by omega)]
    exact natDigitsAux_val n n h le_rfl

theorem natDigitsAux_digits (fuel : Nat) :
    ∀ n, ∀ c ∈ natDigitsAux fuel n, c.isDigit = true := by
  induction fuel with
  | zero => intro n c hc; simp [natDigitsAux] at hc
  | succ fuel ih =>
    intro n c hc
    match n with
    | 0 => simp [natDigitsAux] at hc
    | m + 1 =>
      unfold natDigitsAux at hc
      rcases List.mem_append.1 hc with hc | hc
      · exact ih _ c hc
      · simp only [List.mem_singleton] at hc
        subst hc
        exact digitChar_isDigit (Nat.mod_lt _ (by norm_num))

theorem natDigits_digits (n : Nat) : ∀ c ∈ natDigits n, c.isDigit = true := by
  unfold natDigits
  split
  · intro c hc; simp at hc; subst hc; rfl
  · exact natDigitsAux_digits n n

theorem natDigits_ne_nil (n : Nat) : natDigits n ≠ [] := by
  unfold natDigits
  split
  · simp
  · rename_i h
    match hn : n, h with
    | m + 1, _ =>
      unfold natDigitsAux
      simp

/-! ### The fixed HTML template of `render_html` (source lines 115-159),
split at the f-string holes. The hole order is: meta description, slug,
title, title, description block, (slug, title) three times for the main
images, steps class, steps html. -/

def tplA1 : List Char := "<!DOCTYPE html>\n<html lang=\x22sv\x22>\n<head>\n    <meta charset=\x22UTF-8\x22>\n    <meta name=\x22viewport\x22 content=\x22width=device-width, initial-scale=1.0\x22>    \n    ".data

def metaDesc : List Char := "<meta name=\x22description\x22 content=\x22".data

def tplA2 : List Char := "\x22>        \n    <meta property=\x22og:image\x22 content=\x22https://philipwallin.pw/images/projects/".data

def tplA3 : List Char := "/main_2.jpg\x22>    \n    <title>".data

def tplA4 : List Char := " - Philip Wallin</title>    \n    <link rel=\x22icon\x22 type=\x22image/x-icon\x22 href=\x22../images/favicon.ico\x22>    \n    <link rel=\x22stylesheet\x22 href=\x22../style.css\x22>\n</head>\n<body>\n    <nav>\n        <div class=\x22logo\x22>\n            <a href=\x22../index.html\x22><img src=\x22../images/logo.png\x22 alt=\x22Logo\x22></a>\n        </div>\n        <ul class=\x22nav-links\x22>\n            <li><a href=\x22../index.html\x22>Projekt</a></li>\n            <li><a href=\x22../om_mig.html\x22>Om mig</a></li>\n        </ul>\n    </nav>\n    \n    <section class=\x22project-detail\x22>\n        <h1>".data

def tplA5 : List Char := "</h1>\n        <div class=\x22project-content\x22>\n            <div class=\x22project-description\x22>\n".data

def tplA6 : List Char := "\n            </div>\n            <div class=\x22project-images\x22>\n                ".data

def mk1 : List Char := "<img src=\x22../images/projects/".data

def tplA7 : List Char := "/main_1.jpg\x22 alt=\x22".data

def tplA8 : List Char := " bild 1\x22>\n                ".data

def tplA9 : List Char := "/main_2.jpg\x22 alt=\x22".data

def tplA10 : List Char := " bild 2\x22>\n                ".data

def tplA11 : List Char := "/main_3.jpg\x22 alt=\x22".data

def tplA12 : List Char := " bild 3\x22>\n            </div>\n            \n            <h2>Hur den gjordes</h2>\n            \n            <div class=\x22".data

def tplA13 : List Char := "\x22>\n".data

def tplA14 : List Char := "\n            </div>\n        </div>\n    </section>\n    <!-- Cloudflare Web Analytics --><script defer src=\x27https://static.cloudflareinsights.com/beacon.min.js\x27 data-cf-beacon=\x27\x7b\x22token\x22: \x22f9bdf25e4d7c4efc8e16c66a618ee4c4\x22\x7d\x27></script><!-- End Cloudflare Web Analytics -->\n</body>\n</html>\n".data

/-- `"/step_"`, the path piece between the slug and the index in a
step-image reference. -/
def stepTag : List Char := "/step_".data

/-- Leading part of a step row, up to (excluding) its `<img` tag. -/
def rowA0 : List Char := "                <div class=\x22step-row\x22>\n                    ".data

/-- Between the step index and its second occurrence in the `alt` text. -/
def rowC : List Char := ".jpg\x22 alt=\x22Steg ".data

/-- Between the `alt` index and the paragraph block of a step row. -/
def rowD : List Char := "\x22>\n                    <div class=\x22step-text\x22>\n".data

/-- Closing part of a step row. -/
def rowE : List Char := "\n                    </div>\n                </div>".data

/-- `str.join`: concatenate with `sep` between consecutive elements. -/
def joinSep (sep : List Char) : List (List Char) → List Char
  | [] => []
  | [l] => l
  | l :: ls => l ++ (sep ++ joinSep sep ls)

/-- One description paragraph line `<p>...</p>` (16-space indent). -/
def descLine (p : List Char) : List Char :=
  "                <p>".data ++ (htmlEscape p ++ "</p>".data)

/-- One step paragraph line `<p>...</p>` (24-space indent). -/
def paraLine (p : List Char) : List Char :=
  "                        <p>".data ++ (htmlEscape p ++ "</p>".data)

/-- One row of the image layout: the step image (1-based index) followed by
the step's paragraphs. -/
def rowFor (slug : List Char) (i : Nat) (ps : List (List Char)) : List Char :=
  rowA0 ++ (mk1 ++ (slug ++ (stepTag ++ (natDigits i ++ (rowC ++ (natDigits i ++
    (rowD ++ (joinSep "\n".data (ps.map paraLine) ++ rowE))))))))

/-- The rows for the groups of step paragraphs, numbering from `i`
(`enumerate(step_groups, start=1)` passes `i = 1`). -/
def rowsFrom (slug : List Char) (i : Nat) : List (List (List Char)) → List (List Char)
  | [] => []
  | g :: gs => rowFor slug i g :: rowsFrom slug (i + 1) gs

/-- `steps_html` (source lines 89-109). -/
def stepsHtmlChars (slug mode : List Char) (stepPs : Option (List (List Char)))
    (groups : Option (List (List (List Char)))) : List Char :=
  if mode = "images".data then
    match groups with
    | some gs => joinSep "\n\n".data (rowsFrom slug 1 gs)
    | none => []
  else if mode = "centered".data then
    match stepPs with
    | some ps => joinSep "\n".data (ps.map paraLine)
    | none => []
  else []

/-- `steps_class` (source lines 111-113). -/
def stepsClassChars (mode : List Char) : List Char :=
  "project-steps".data ++ (if mode = "centered".data then " centered-text".data else [])

/-- `safe_description` (source line 82): the description paragraphs,
individually trimmed, empty ones dropped, joined with one space. -/
def descJoinChars (ps : List (List Char)) : List Char :=
  joinSep [' '] ((ps.map pyStrip).filter (fun q => !q.isEmpty))

/-- `render_html` over character lists: the template with the escaped texts,
the slug, the steps class and the steps html substituted. -/
def renderChars (slug title : List Char) (descs : List (List Char)) (mode : List Char)
    (stepPs : Option (List (List Char))) (groups : Option (List (List (List Char)))) :
    List Char :=
  tplA1 ++ (metaDesc ++ (htmlEscape (descJoinChars descs) ++ (tplA2 ++ (slug ++
    (tplA3 ++ (htmlEscape title ++ (tplA4 ++ (htmlEscape title ++ (tplA5 ++
    (joinSep "\n".data (descs.map descLine) ++ (tplA6 ++ (mk1 ++ (slug ++ (tplA7 ++
    (htmlEscape title ++ (tplA8 ++ (mk1 ++ (slug ++ (tplA9 ++ (htmlEscape title ++
    (tplA10 ++ (mk1 ++ (slug ++ (tplA11 ++ (htmlEscape title ++ (tplA12 ++
    (stepsClassChars mode ++ (tplA13 ++ (stepsHtmlChars slug mode stepPs groups ++
    tplA14)))))))))))))))))))))))))))))

/-- `render_html` from `generate.py`. -/
def render_html (slug title : String) (description_paragraphs : List String)
    (steps_mode : String) (step_paragraphs : Option (List String))
    (step_groups : Option (List (List String))) : String :=
  ⟨renderChars slug.data title.data (description_paragraphs.map String.data)
    steps_mode.data (step_paragraphs.map (List.map String.data))
    (step_groups.map (List.map (List.map String.data)))⟩

/-! ### The interactive `main` (source lines 163-228), embedded as a function
of the input script and of the pre-existing filesystem state. The filesystem
state is given by two predicates: whether `projects/{slug}.html` exists and
whether `images/projects/{slug}` exists. The returned list contains the
filesystem writes performed, in order. -/

/-- A filesystem write performed by `main`: `projects_dir.mkdir`,
`images_path.mkdir`, or `html_path.write_text`. -/
inductive FsOp where
  | mkdirProjects : FsOp
  | mkdirImages : String → FsOp
  | writeHtml : String → String → FsOp
deriving DecidableEq

/-- How a run of `main` ends. -/
inductive MainResult where
  | invalidSlug : MainResult
  | declinedName : MainResult
  | declinedOverwrite : MainResult
  | declinedFolder : MainResult
  | completed : MainResult
  | outOfInput : MainResult
deriving DecidableEq

/-- `prompt_non_empty`: consume responses until a non-empty (after trim) one;
`none` when the script runs out. -/
def prompt_non_empty : List String → Option (String × List String)
  | [] => none
  | s :: rest =>
    let v := pyStrip s.data
    if v.isEmpty then prompt_non_empty rest else some (⟨v⟩, rest)

/-- One `confirm(...)` interaction: consumes exactly one response. -/
def readConfirm : List String → Option (Bool × List String)
  | [] => none
  | s :: rest => some (confirm s, rest)

/-- Python `int(raw)` on an already-stripped string (optional sign and
decimal digits; the exotic forms such as underscore separators that the
tool's prompts never see are not modelled). -/
def pyParseInt (l : List Char) : Option Int :=
  match l with
  | '-' :: ds => if ds ≠ [] ∧ ds.all Char.isDigit then some (-(digitsVal ds : Int)) else none
  | '+' :: ds => if ds ≠ [] ∧ ds.all Char.isDigit then some ((digitsVal ds : Int)) else none
  | ds => if ds ≠ [] ∧ ds.all Char.isDigit then some ((digitsVal ds : Int)) else none

/-- `prompt_int`: blank input with `min_value = 0` returns 0; unparsable or
below-minimum input re-prompts. -/
def prompt_int (minValue : Int) : List String → Option (Int × List String)
  | [] => none
  | s :: rest =>
    let raw := pyStrip s.data
    if raw.isEmpty ∧ minValue = 0 then some (0, rest)
    else
      match pyParseInt raw with
      | none => prompt_int minValue rest
      | some v => if v < minValue then prompt_int minValue rest else some (v, rest)

/-- Collect `n` non-empty responses (`build_description_paragraphs` and
`build_centered_steps` both loop over `prompt_non_empty`). -/
def collectNonEmpty : Nat → List String → Option (List String × List String)
  | 0, stdin => some ([], stdin)
  | n + 1, stdin =>
    match prompt_non_empty stdin with
    | none => none
    | some (v, rest) =>
      match collectNonEmpty n rest with
      | none => none
      | some (vs, rest2) => some (v :: vs, rest2)

/-- `build_steps_with_images`: for each step, a paragraph count (minimum 1)
followed by that many non-empty paragraphs. -/
def collectGroups : Nat → List String → Option (List (List String) × List String)
  | 0, stdin => some ([], stdin)
  | n + 1, stdin =>
    match prompt_int 1 stdin with
    | none => none
    | some (pc, rest) =>
      match collectNonEmpty pc.toNat rest with
      | none => none
      | some (ps, rest2) =>
        match collectGroups n rest2 with
        | none => none
        | some (gs, rest3) => some (ps :: gs, rest3)

/-- The `while mode_choice not in {"1", "2"}` loop of `main`. -/
def readModeChoice : List String → Option (String × List String)
  | [] => none
  | s :: rest =>
    let v := pyStrip s.data
    if v = "1".data ∨ v = "2".data then some (⟨v⟩, rest) else readModeChoice rest

/-- Steps 6-9 of `main`: collect title, description, layout choice and step
content, render the page, and perform the three filesystem writes
(`projects_dir.mkdir`, `images_path.mkdir`, `html_path.write_text`). -/
def mainCollect (slug : String) (stdin : List String) : List FsOp × MainResult :=
  match prompt_non_empty stdin with
  | none => ([], MainResult.outOfInput)
  | some (title, s4) =>
    match prompt_int 1 s4 with
    | none => ([], MainResult.outOfInput)
    | some (dc, s5) =>
      match collectNonEmpty dc.toNat s5 with
      | none => ([], MainResult.outOfInput)
      | some (descs, s6) =>
        match readModeChoice s6 with
        | none => ([], MainResult.outOfInput)
        | some (choice, s7) =>
          if choice = "1" then
            match prompt_int 1 s7 with
            | none => ([], MainResult.outOfInput)
            | some (sc, s8) =>
              match collectGroups sc.toNat s8 with
              | none => ([], MainResult.outOfInput)
              | some (gs, _) =>
                ([FsOp.mkdirProjects, FsOp.mkdirImages slug,
                  FsOp.writeHtml slug
                    (render_html slug title descs "images" none (some gs))],
                  MainResult.completed)
          else
            match prompt_int 1 s7 with
            | none => ([], MainResult.outOfInput)
            | some (pc, s8) =>
              match collectNonEmpty pc.toNat s8 with
              | none => ([], MainResult.outOfInput)
              | some (ps, _) =>
                ([FsOp.mkdirProjects, FsOp.mkdirImages slug,
                  FsOp.writeHtml slug
                    (render_html slug title descs "centered" (some ps) none)],
                  MainResult.completed)

/-- Step 5 of `main`: the existing-image-folder confirmation. -/
def mainFolderCheck (dirExists : String → Bool) (slug : String)
    (stdin : List String) : List FsOp × MainResult :=
  if dirExists slug then
    match readConfirm stdin with
    | none => ([], MainResult.outOfInput)
    | some (ok, s) =>
      if ok then mainCollect slug s else ([], MainResult.declinedFolder)
  else mainCollect slug stdin

/-- Step 4 of `main`: the existing-file overwrite confirmation. -/
def mainOverwriteCheck (htmlExists dirExists : String → Bool) (slug : String)
    (stdin : List String) : List FsOp × MainResult :=
  if htmlExists slug then
    match readConfirm stdin with
    | none => ([], MainResult.outOfInput)
    | some (ok, s) =>
      if ok then mainFolderCheck dirExists slug s
      else ([], MainResult.declinedOverwrite)
  else mainFolderCheck dirExists slug stdin

/-- `main` from `generate.py` (the name `main` itself is reserved by Lean
for an `IO` entry point): normalize the name, run the three confirmations,
collect the content, then write. -/
def mainRun (htmlExists dirExists : String → Bool) (stdin : List String) :
    List FsOp × MainResult :=
  match prompt_non_empty stdin with
  | none => ([], MainResult.outOfInput)
  | some (rawSlug, s1) =>
    if slugify rawSlug = "" then ([], MainResult.invalidSlug)
    else
      match readConfirm s1 with
      | none => ([], MainResult.outOfInput)
      | some (ok, s2) =>
        if ok then mainOverwriteCheck htmlExists dirExists (slugify rawSlug) s2
        else ([], MainResult.declinedName)

theorem mainCollect_result (slug : String) (stdin : List String) :
    (mainCollect slug stdin).2 = MainResult.completed
      ∨ (mainCollect slug stdin).2 = MainResult.outOfInput := by
  unfold mainCollect
  repeat' split
  all_goals simp

theorem mainCollect_no_writes (slug : String) (stdin : List String)
    (h : (mainCollect slug stdin).2 = MainResult.invalidSlug
      ∨ (mainCollect slug stdin).2 = MainResult.declinedName
      ∨ (mainCollect slug stdin).2 = MainResult.declinedOverwrite
      ∨ (mainCollect slug stdin).2 = MainResult.declinedFolder) :
    (mainCollect slug stdin).1 = [] := by
  rcases mainCollect_result slug stdin with hc | hc <;> rw [hc] at h <;> simp at h

theorem mainFolderCheck_no_writes (dirExists : String → Bool) (slug : String)
    (stdin : List String)
    (h : (mainFolderCheck dirExists slug stdin).2 = MainResult.invalidSlug
      ∨ (mainFolderCheck dirExists slug stdin).2 = MainResult.declinedName
      ∨ (mainFolderCheck dirExists slug stdin).2 = MainResult.declinedOverwrite
      ∨ (mainFolderCheck dirExists slug stdin).2 = MainResult.declinedFolder) :
    (mainFolderCheck dirExists slug stdin).1 = [] := by
  revert h
  unfold mainFolderCheck
  repeat' split
  all_goals intro h
  all_goals first | rfl | exact mainCollect_no_writes _ _ h

theorem mainOverwriteCheck_no_writes (htmlExists dirExists : String → Bool)
    (slug : String) (stdin : List String)
    (h : (mainOverwriteCheck htmlExists dirExists slug stdin).2 = MainResult.invalidSlug
      ∨ (mainOverwriteCheck htmlExists dirExists slug stdin).2 = MainResult.declinedName
      ∨ (mainOverwriteCheck htmlExists dirExists slug stdin).2 = MainResult.declinedOverwrite
      ∨ (mainOverwriteCheck htmlExists dirExists slug stdin).2 = MainResult.declinedFolder) :
    (mainOverwriteCheck htmlExists dirExists slug stdin).1 = [] := by
  revert h
  unfold mainOverwriteCheck
  repeat' split
  all_goals intro h
  all_goals first | rfl | exact mainFolderCheck_no_writes _ _ _ h

/-- **C8.** On every abort path of `main` — the slug normalizing to empty, or
the user declining the name, overwrite, or folder confirmation — the run
performs no filesystem write: no directory is created and no file is
written. -/
theorem main_abort_no_writes (htmlExists dirExists : String → Bool)
    (stdin : List String)
    (h : (mainRun htmlExists dirExists stdin).2 = MainResult.invalidSlug
      ∨ (mainRun htmlExists dirExists stdin).2 = MainResult.declinedName
      ∨ (mainRun htmlExists dirExists stdin).2 = MainResult.declinedOverwrite
      ∨ (mainRun htmlExists dirExists stdin).2 = MainResult.declinedFolder) :
    (mainRun htmlExists dirExists stdin).1 = [] := by
  revert h
  unfold mainRun
  repeat' split
  all_goals intro h
  all_goals first | rfl | exact mainOverwriteCheck_no_writes _ _ _ _ h

/-- Witness for C8: a script whose project name normalizes to the empty slug
aborts without writes. -/
theorem main_abort_no_writes_witness :
    ((mainRun (fun _ => false) (fun _ => false) ["!!"]).2 = MainResult.invalidSlug
      ∨ (mainRun (fun _ => false) (fun _ => false) ["!!"]).2 = MainResult.declinedName
      ∨ (mainRun (fun _ => false) (fun _ => false) ["!!"]).2 = MainResult.declinedOverwrite
      ∨ (mainRun (fun _ => false) (fun _ => false) ["!!"]).2 = MainResult.declinedFolder)
    ∧ (mainRun (fun _ => false) (fun _ => false) ["!!"]).1 = [] :=
  ⟨Or.inl (by decide),
    main_abort_no_writes (fun _ => false) (fun _ => false) ["!!"] (Or.inl (by decide))⟩

/-! ### Occurrence counting and scanning machinery.

`countOcc pat l` counts the positions of `l` where `pat` occurs.
`countFrom pat a b` counts the occurrences of `pat` in `a ++ b` that start
inside `a`; it decomposes counting over concatenations. `stepRefs slug l`
scans `l` for step-image references `<img src="../images/projects/slug/step_N`
and returns the list of indices `N` in order of appearance. -/

theorem isPrefixOf_append_self : ∀ x y : List Char, x.isPrefixOf (x ++ y) = true
  | [], y => by cases y <;> rfl
  | c :: t, y => by simp [List.isPrefixOf, isPrefixOf_append_self t y]

theorem isPrefixOf_append_cancel :
    ∀ x u v : List Char, (x ++ u).isPrefixOf (x ++ v) = u.isPrefixOf v
  | [], _, _ => rfl
  | c :: t, u, v => by simp [List.isPrefixOf, isPrefixOf_append_cancel t u v]

theorem isPrefixOf_split : ∀ m x b : List Char,
    m.isPrefixOf (x ++ b) = true → m.isPrefixOf x = true ∨ x.isPrefixOf m = true
  | [], x, _, _ => Or.inl (by cases x <;> rfl)
  | _ :: _, [], _, _ => Or.inr rfl
  | c :: t, d :: u, b, h => by
    simp only [List.cons_append, List.isPrefixOf, Bool.and_eq_true, beq_iff_eq] at h ⊢
    rcases isPrefixOf_split t u b h.2 with h2 | h2
    · exact Or.inl ⟨h.1, h2⟩
    · exact Or.inr ⟨h.1.symm, h2⟩

theorem isPrefixOf_trans : ∀ a b c : List Char,
    a.isPrefixOf b = true → b.isPrefixOf c = true → a.isPrefixOf c = true
  | [], _, c, _, _ => by cases c <;> rfl
  | _ :: _, [], _, h, _ => by simp [List.isPrefixOf] at h
  | _ :: _, _ :: _, [], _, h => by simp [List.isPrefixOf] at h
  | a :: as, b :: bs, c :: cs, h1, h2 => by
    simp only [List.isPrefixOf, Bool.and_eq_true, beq_iff_eq] at h1 h2 ⊢
    exact ⟨h1.1.trans h2.1, isPrefixOf_trans as bs cs h1.2 h2.2⟩

theorem not_prefix_into (m x b : List Char) (h1 : m.isPrefixOf x = false)
    (h2 : x.isPrefixOf m = false) : m.isPrefixOf (x ++ b) = false := by
  by_contra h
  rcases isPrefixOf_split m x b (by simpa using h) with h3 | h3
  · rw [h1] at h3; exact Bool.false_ne_true h3
  · rw [h2] at h3; exact Bool.false_ne_true h3

theorem head_of_isPrefixOf {h0 : Char} {t : List Char} {c : Char} {rest : List Char}
    (h : (h0 :: t).isPrefixOf (c :: rest) = true) : c = h0 := by
  simp only [List.isPrefixOf, Bool.and_eq_true, beq_iff_eq] at h
  exact h.1.symm

/-- Number of positions of `l` where `pat` occurs. -/
def countOcc (pat : List Char) : List Char → Nat
  | [] => 0
  | c :: rest => (if pat.isPrefixOf (c :: rest) then 1 else 0) + countOcc pat rest

/-- Number of occurrences of `pat` in `a ++ b` whose start lies in `a`. -/
def countFrom (pat : List Char) : List Char → List Char → Nat
  | [], _ => 0
  | c :: rest, b =>
    (if pat.isPrefixOf (c :: (rest ++ b)) then 1 else 0) + countFrom pat rest b

theorem countOcc_cons (pat : List Char) (c : Char) (rest : List Char) :
    countOcc pat (c :: rest) =
      (if pat.isPrefixOf (c :: rest) then 1 else 0) + countOcc pat rest := rfl

theorem countFrom_cons (pat : List Char) (c : Char) (rest b : List Char) :
    countFrom pat (c :: rest) b =
      (if pat.isPrefixOf (c :: (rest ++ b)) then 1 else 0) + countFrom pat rest b := rfl

theorem countOcc_append (pat a b : List Char) :
    countOcc pat (a ++ b) = countFrom pat a b + countOcc pat b := by
  induction a with
  | nil => simp [countFrom]
  | cons c rest ih =>
    rw [List.cons_append, countOcc_cons, countFrom_cons, ih]
    omega

theorem countFrom_append (pat a1 a2 b : List Char) :
    countFrom pat (a1 ++ a2) b = countFrom pat a1 (a2 ++ b) + countFrom pat a2 b := by
  induction a1 with
  | nil => simp [countFrom]
  | cons c rest ih =>
    rw [List.cons_append, countFrom_cons, countFrom_cons, List.append_assoc, ih]
    omega

/-- At every position of `l`, the text seen there already disagrees with `m`
inside `l` itself (so no continuation can produce a match of any pattern
extending `m` starting in `l`). Decidable by computation for concrete `m`, `l`. -/
def noStartAt (m : List Char) : List Char → Bool
  | [] => true
  | c :: rest =>
    (!(m.isPrefixOf (c :: rest)) && !((c :: rest).isPrefixOf m)) && noStartAt m rest

theorem countFrom_zero_of_noStart {m pat a : List Char} (b : List Char)
    (hm : m.isPrefixOf pat = true) (h : noStartAt m a = true) :
    countFrom pat a b = 0 := by
  induction a with
  | nil => rfl
  | cons c rest ih =>
    unfold noStartAt at h
    simp only [Bool.and_eq_true, Bool.not_eq_true'] at h
    rw [countFrom_cons, ih h.2]
    have : pat.isPrefixOf (c :: (rest ++ b)) = false := by
      by_contra hx
      have hx' : pat.isPrefixOf (c :: (rest ++ b)) = true := by simpa using hx
      have hmx : m.isPrefixOf ((c :: rest) ++ b) = true :=
        isPrefixOf_trans _ _ _ hm (by simpa using hx')
      rcases isPrefixOf_split m (c :: rest) b hmx with h3 | h3
      · rw [h.1.1] at h3; exact Bool.false_ne_true h3
      · rw [h.1.2] at h3; exact Bool.false_ne_true h3
    rw [this]
    rfl

theorem countFrom_zero_of_headFree {pat a : List Char} (b : List Char) {h0 : Char}
    (hpat : pat.head? = some h0) (h : ∀ c ∈ a, c ≠ h0) : countFrom pat a b = 0 := by
  induction a with
  | nil => rfl
  | cons c rest ih =>
    rw [countFrom_cons, ih fun x hx => h x (by simp [hx])]
    cases pat with
    | nil => simp at hpat
    | cons p0 pt =>
      simp only [List.head?_cons, Option.some.injEq] at hpat
      have hf : (p0 :: pt).isPrefixOf (c :: (rest ++ b)) = false := by
        by_contra hx
        have hc0 : c = p0 := head_of_isPrefixOf (by simpa using hx)
        exact h c (by simp) (hc0.trans hpat)
      rw [hf]
      rfl

theorem countOcc_zero_of_noStart {m pat l : List Char}
    (hm : m.isPrefixOf pat = true) (h : noStartAt m l = true) : countOcc pat l = 0 := by
  have h1 := countOcc_append pat l []
  rw [List.append_nil] at h1
  rw [h1, countFrom_zero_of_noStart [] hm h]
  rfl

theorem countOcc_zero_of_headFree {pat l : List Char} {h0 : Char}
    (hpat : pat.head? = some h0) (h : ∀ c ∈ l, c ≠ h0) : countOcc pat l = 0 := by
  have h1 := countOcc_append pat l []
  rw [List.append_nil] at h1
  rw [h1, countFrom_zero_of_headFree [] hpat h]
  rfl

/-- The step-image reference pattern for a given slug:
`<img src="../images/projects/` + slug + `/step_`. -/
def refPat (slug : List Char) : List Char := mk1 ++ (slug ++ stepTag)

/-- Scan for step-image references: at each position where `refPat slug`
occurs, read the decimal index that follows it. -/
def stepRefs (slug : List Char) : List Char → List Nat
  | [] => []
  | c :: rest =>
    if (refPat slug).isPrefixOf (c :: rest) then
      digitsVal (((c :: rest).drop (refPat slug).length).takeWhile Char.isDigit)
        :: stepRefs slug rest
    else stepRefs slug rest

/-- Occurrence starts of `refPat slug` inside `a` (against `a ++ b`),
with the index read off each. -/
def refsFrom (slug : List Char) : List Char → List Char → List Nat
  | [], _ => []
  | c :: rest, b =>
    if (refPat slug).isPrefixOf (c :: (rest ++ b)) then
      digitsVal (((c :: (rest ++ b)).drop (refPat slug).length).takeWhile Char.isDigit)
        :: refsFrom slug rest b
    else refsFrom slug rest b

theorem stepRefs_cons (slug : List Char) (c : Char) (rest : List Char) :
    stepRefs slug (c :: rest) =
      if (refPat slug).isPrefixOf (c :: rest) then
        digitsVal (((c :: rest).drop (refPat slug).length).takeWhile Char.isDigit)
          :: stepRefs slug rest
      else stepRefs slug rest := rfl

theorem refsFrom_cons (slug : List Char) (c : Char) (rest b : List Char) :
    refsFrom slug (c :: rest) b =
      if (refPat slug).isPrefixOf (c :: (rest ++ b)) then
        digitsVal (((c :: (rest ++ b)).drop (refPat slug).length).takeWhile Char.isDigit)
          :: refsFrom slug rest b
      else refsFrom slug rest b := rfl

theorem stepRefs_append (slug a b : List Char) :
    stepRefs slug (a ++ b) = refsFrom slug a b ++ stepRefs slug b := by
  induction a with
  | nil => simp [refsFrom]
  | cons c rest ih =>
    rw [List.cons_append, stepRefs_cons, refsFrom_cons]
    by_cases hc : (refPat slug).isPrefixOf (c :: (rest ++ b)) = true
    · rw [if_pos hc, if_pos hc, ih]
      simp
    · rw [if_neg hc, if_neg hc, ih]

theorem refsFrom_append (slug a1 a2 b : List Char) :
    refsFrom slug (a1 ++ a2) b = refsFrom slug a1 (a2 ++ b) ++ refsFrom slug a2 b := by
  induction a1 with
  | nil => simp [refsFrom]
  | cons c rest ih =>
    rw [List.cons_append, refsFrom_cons, List.append_assoc, refsFrom_cons, ih]
    by_cases hc : (refPat slug).isPrefixOf (c :: (rest ++ (a2 ++ b))) = true
    · rw [if_pos hc, if_pos hc]
      simp
    · rw [if_neg hc, if_neg hc]

theorem slugChar_ne {c : Char} (h : isSlugChar c = true) :
    c ≠ '<' ∧ c ≠ '>' ∧ c ≠ '&' ∧ c ≠ qm ∧ c ≠ apos ∧ c ≠ '\n' := by
  refine ⟨?_, ?_, ?_, ?_, ?_, ?_⟩ <;> rintro rfl <;> exact absurd h (by decide)

theorem digitChar_ne {c : Char} (h : c.isDigit = true) :
    c ≠ '<' ∧ c ≠ '>' ∧ c ≠ '&' ∧ c ≠ qm ∧ c ≠ apos ∧ c ≠ '\n' := by
  refine ⟨?_, ?_, ?_, ?_, ?_, ?_⟩ <;> rintro rfl <;> exact absurd h (by decide)

theorem takeWhile_all_append {p : Char → Bool} {d : List Char} (y : List Char)
    (h : ∀ c ∈ d, p c = true) : (d ++ y).takeWhile p = d ++ y.takeWhile p := by
  induction d with
  | nil => rfl
  | cons c t ih =>
    rw [List.cons_append, List.takeWhile_cons, if_pos (h c (by simp)),
      ih fun x hx => h x (by simp [hx]), List.cons_append]

theorem mk1_eq_cons : mk1 = '<' :: "img src=\x22../images/projects/".data := by decide

theorem refPat_head (slug : List Char) : (refPat slug).head? = some '<' := rfl

theorem mk1_prefix_refPat (slug : List Char) : mk1.isPrefixOf (refPat slug) = true :=
  isPrefixOf_append_self mk1 (slug ++ stepTag)

theorem refsFrom_zero_of_noStart {slug a : List Char} (b : List Char)
    (h : noStartAt mk1 a = true) : refsFrom slug a b = [] := by
  induction a with
  | nil => rfl
  | cons c rest ih =>
    unfold noStartAt at h
    simp only [Bool.and_eq_true, Bool.not_eq_true'] at h
    rw [refsFrom_cons, ih h.2]
    have hf : (refPat slug).isPrefixOf (c :: (rest ++ b)) = false := by
      by_contra hx
      have hmx : mk1.isPrefixOf ((c :: rest) ++ b) = true :=
        isPrefixOf_trans _ _ _ (mk1_prefix_refPat slug) (by simpa using hx)
      rcases isPrefixOf_split mk1 (c :: rest) b hmx with h3 | h3
      · rw [h.1.1] at h3; exact Bool.false_ne_true h3
      · rw [h.1.2] at h3; exact Bool.false_ne_true h3
    rw [hf]
    simp

theorem refsFrom_zero_of_ltFree {slug a : List Char} (b : List Char)
    (h : ∀ c ∈ a, c ≠ '<') : refsFrom slug a b = [] := by
  induction a with
  | nil => rfl
  | cons c rest ih =>
    rw [refsFrom_cons, ih fun x hx => h x (by simp [hx])]
    have hf : (refPat slug).isPrefixOf (c :: (rest ++ b)) = false := by
      obtain ⟨t, ht⟩ : ∃ t, refPat slug = '<' :: t :=
        ⟨"img src=\x22../images/projects/".data ++ (slug ++ stepTag), by
          rw [refPat, mk1_eq_cons]
          rfl⟩
      rw [ht]
      by_contra hx
      have hx' : ('<' :: t).isPrefixOf (c :: (rest ++ b)) = true := by simpa using hx
      exact h c (by simp) (head_of_isPrefixOf hx')
    rw [hf]
    simp

theorem stepRefs_zero_of_noStart {slug l : List Char}
    (h : noStartAt mk1 l = true) : stepRefs slug l = [] := by
  have h1 := stepRefs_append slug l []
  rw [List.append_nil] at h1
  rw [h1, refsFrom_zero_of_noStart [] h]
  rfl

theorem refsFrom_mk1_hit (slug : List Char) (i : Nat) {Y : List Char}
    (hY : Y ≠ []) (hYd : Y.takeWhile Char.isDigit = []) (rest : List Char) :
    refsFrom slug mk1 (slug ++ (stepTag ++ (natDigits i ++ (Y ++ rest)))) = [i] := by
  have htw : ((natDigits i ++ (Y ++ rest)).takeWhile Char.isDigit) = natDigits i := by
    rw [takeWhile_all_append _ (natDigits_digits i)]
    cases Y with
    | nil => exact absurd rfl hY
    | cons y0 yt =>
      rw [List.takeWhile_cons] at hYd
      by_cases hp : Char.isDigit y0 = true
      · rw [if_pos hp] at hYd
        simp at hYd
      · rw [List.cons_append, List.takeWhile_cons, if_neg hp, List.append_nil]
  rw [mk1_eq_cons, refsFrom_cons]
  have hassoc : '<' :: ("img src=\x22../images/projects/".data
      ++ (slug ++ (stepTag ++ (natDigits i ++ (Y ++ rest)))))
      = refPat slug ++ (natDigits i ++ (Y ++ rest)) := by
    rw [refPat, mk1_eq_cons]
    simp [List.append_assoc]
  rw [hassoc, if_pos (isPrefixOf_append_self (refPat slug) _), List.drop_left, htw,
    natDigits_val, refsFrom_zero_of_ltFree _ (by decide)]

theorem refsFrom_mk1_miss (slug b : List Char)
    (h : (slug ++ stepTag).isPrefixOf b = false) : refsFrom slug mk1 b = [] := by
  rw [mk1_eq_cons, refsFrom_cons]
  have hassoc : '<' :: ("img src=\x22../images/projects/".data ++ b) = mk1 ++ b := by
    rw [mk1_eq_cons]
    rfl
  rw [hassoc]
  have hne : (refPat slug).isPrefixOf (mk1 ++ b) = false := by
    rw [refPat, isPrefixOf_append_cancel mk1 (slug ++ stepTag) b]
    exact h
  rw [hne]
  simp only [Bool.false_eq_true, if_false]
  exact refsFrom_zero_of_ltFree _ (by decide)

theorem refsFrom_joinSep {slug sep : List Char} {parts : List (List Char)}
    (hsep : ∀ b2, refsFrom slug sep b2 = [])
    (hp : ∀ p ∈ parts, ∀ b2, refsFrom slug p b2 = []) (b : List Char) :
    refsFrom slug (joinSep sep parts) b = [] := by
  induction parts generalizing b with
  | nil => rfl
  | cons p ps ih =>
    cases ps with
    | nil => exact hp p (by simp) b
    | cons q qs =>
      show refsFrom slug (p ++ (sep ++ joinSep sep (q :: qs))) b = []
      rw [refsFrom_append, refsFrom_append, hp p (by simp), hsep,
        ih (fun x hx b2 => hp x (by simp [hx]) b2)]
      rfl

theorem refsFrom_paraLine (slug : List Char) (p b : List Char) :
    refsFrom slug (paraLine p) b = [] := by
  unfold paraLine
  rw [refsFrom_append, refsFrom_append,
    refsFrom_zero_of_noStart _ (by decide),
    refsFrom_zero_of_ltFree _ (fun c hc => (htmlEscape_raw_free hc).1),
    refsFrom_zero_of_noStart _ (by decide)]
  rfl

theorem refsFrom_descLine (slug : List Char) (p b : List Char) :
    refsFrom slug (descLine p) b = [] := by
  unfold descLine
  rw [refsFrom_append, refsFrom_append,
    refsFrom_zero_of_noStart _ (by decide),
    refsFrom_zero_of_ltFree _ (fun c hc => (htmlEscape_raw_free hc).1),
    refsFrom_zero_of_noStart _ (by decide)]
  rfl

theorem refsFrom_descBlock (slug : List Char) (descs : List (List Char)) (b : List Char) :
    refsFrom slug (joinSep "\n".data (descs.map descLine)) b = [] := by
  refine refsFrom_joinSep (fun b2 => refsFrom_zero_of_ltFree b2 (by decide)) ?_ b
  intro p hp b2
  rcases List.mem_map.1 hp with ⟨q, _, rfl⟩
  exact refsFrom_descLine slug q b2

theorem refsFrom_paraBlock (slug : List Char) (ps : List (List Char)) (b : List Char) :
    refsFrom slug (joinSep "\n".data (ps.map paraLine)) b = [] := by
  refine refsFrom_joinSep (fun b2 => refsFrom_zero_of_ltFree b2 (by decide)) ?_ b
  intro p hp b2
  rcases List.mem_map.1 hp with ⟨q, _, rfl⟩
  exact refsFrom_paraLine slug q b2

theorem stepRefs_rowFor (slug : List Char) (hslug : ∀ c ∈ slug, isSlugChar c = true)
    (i : Nat) (ps : List (List Char)) (b : List Char) :
    stepRefs slug (rowFor slug i ps ++ b) = i :: stepRefs slug b := by
  have hlt : ∀ c ∈ slug, c ≠ '<' := fun c hc => (slugChar_ne (hslug c hc)).1
  have hdig : ∀ i2 : Nat, ∀ c ∈ natDigits i2, c ≠ '<' :=
    fun i2 c hc => (digitChar_ne (natDigits_digits i2 c hc)).1
  unfold rowFor
  simp only [List.append_assoc, stepRefs_append]
  rw [refsFrom_zero_of_noStart _ (by decide),
    refsFrom_mk1_hit slug i (by decide) (by decide),
    refsFrom_zero_of_ltFree _ hlt,
    refsFrom_zero_of_ltFree _ (by decide),
    refsFrom_zero_of_ltFree _ (hdig i),
    refsFrom_zero_of_ltFree _ (by decide),
    refsFrom_zero_of_ltFree _ (hdig i),
    refsFrom_zero_of_noStart _ (by decide),
    refsFrom_paraBlock,
    refsFrom_zero_of_noStart _ (by decide)]
  simp

theorem stepRefs_rows (slug : List Char) (hslug : ∀ c ∈ slug, isSlugChar c = true)
    (tail : List Char) (htail : stepRefs slug tail = []) :
    ∀ i gs, stepRefs slug (joinSep "\n\n".data (rowsFrom slug i gs) ++ tail)
      = List.range' i gs.length := by
  intro i gs
  induction gs generalizing i with
  | nil => simpa [rowsFrom, joinSep] using htail
  | cons g gs ih =>
    cases gs with
    | nil =>
      show stepRefs slug (rowFor slug i g ++ tail) = _
      rw [stepRefs_rowFor slug hslug i g tail, htail]
      rfl
    | cons g2 gs2 =>
      have hshape : joinSep "\n\n".data (rowsFrom slug i (g :: g2 :: gs2)) ++ tail
          = rowFor slug i g ++ ("\n\n".data
            ++ (joinSep "\n\n".data (rowsFrom slug (i + 1) (g2 :: gs2)) ++ tail)) := by
        show (rowFor slug i g ++ ("\n\n".data
          ++ joinSep "\n\n".data (rowsFrom slug (i + 1) (g2 :: gs2)))) ++ tail = _
        simp [List.append_assoc]
      rw [hshape, stepRefs_rowFor slug hslug, stepRefs_append,
        refsFrom_zero_of_ltFree _ (by decide), List.nil_append, ih (i + 1)]
      rfl

theorem miss_at_main (slug x rest : List Char)
    (h1 : stepTag.isPrefixOf x = false) (h2 : x.isPrefixOf stepTag = false) :
    refsFrom slug mk1 (slug ++ (x ++ rest)) = [] := by
  apply refsFrom_mk1_miss
  rw [show slug ++ (x ++ rest) = slug ++ (x ++ rest) from rfl]
  have hc : (slug ++ stepTag).isPrefixOf (slug ++ (x ++ rest))
      = stepTag.isPrefixOf (x ++ rest) := isPrefixOf_append_cancel slug stepTag (x ++ rest)
  rw [hc]
  exact not_prefix_into _ _ _ h1 h2

/-- The step-reference scan of the full render output only depends on the
steps section: every other segment of the template, and all escaped user
text, is free of step-image references. -/
theorem stepRefs_render (slug : List Char) (hslug : ∀ c ∈ slug, isSlugChar c = true)
    (title : List Char) (descs : List (List Char)) (mode : List Char)
    (stepPs : Option (List (List Char))) (groups : Option (List (List (List Char)))) :
    stepRefs slug (renderChars slug title descs mode stepPs groups)
      = stepRefs slug (stepsHtmlChars slug mode stepPs groups ++ tplA14) := by
  have hlt : ∀ c ∈ slug, c ≠ '<' := fun c hc => (slugChar_ne (hslug c hc)).1
  have hesc : ∀ t : List Char, ∀ c ∈ htmlEscape t, c ≠ '<' :=
    fun t c hc => (htmlEscape_raw_free hc).1
  have hcls : ∀ c ∈ stepsClassChars mode, c ≠ '<' := by
    intro c hc
    unfold stepsClassChars at hc
    rcases List.mem_append.1 hc with hc | hc
    · exact (by decide : ∀ x ∈ "project-steps".data, x ≠ '<') c hc
    · by_cases hm : mode = "centered".data
      · rw [if_pos hm] at hc
        exact (by decide : ∀ x ∈ " centered-text".data, x ≠ '<') c hc
      · rw [if_neg hm] at hc
        simp at hc
  unfold renderChars
  simp only [stepRefs_append]
  rw [refsFrom_zero_of_noStart _ (by decide),
    refsFrom_zero_of_noStart _ (by decide),
    refsFrom_zero_of_ltFree _ (hesc _),
    refsFrom_zero_of_noStart _ (by decide),
    refsFrom_zero_of_ltFree _ hlt,
    refsFrom_zero_of_noStart _ (by decide),
    refsFrom_zero_of_ltFree _ (hesc _),
    refsFrom_zero_of_noStart _ (by decide),
    refsFrom_zero_of_ltFree _ (hesc _),
    refsFrom_zero_of_noStart _ (by decide),
    refsFrom_descBlock,
    refsFrom_zero_of_noStart _ (by decide),
    miss_at_main slug tplA7 _ (by decide) (by decide),
    refsFrom_zero_of_ltFree _ hlt,
    refsFrom_zero_of_ltFree _ (by decide),
    refsFrom_zero_of_ltFree _ (hesc _),
    refsFrom_zero_of_ltFree _ (by decide),
    miss_at_main slug tplA9 _ (by decide) (by decide),
    refsFrom_zero_of_ltFree _ hlt,
    refsFrom_zero_of_ltFree _ (by decide),
    refsFrom_zero_of_ltFree _ (hesc _),
    refsFrom_zero_of_ltFree _ (by decide),
    miss_at_main slug tplA11 _ (by decide) (by decide),
    refsFrom_zero_of_ltFree _ hlt,
    refsFrom_zero_of_ltFree _ (by decide),
    refsFrom_zero_of_ltFree _ (hesc _),
    refsFrom_zero_of_noStart _ (by decide),
    refsFrom_zero_of_ltFree _ hcls,
    refsFrom_zero_of_ltFree _ (by decide)]
  simp

theorem stepsHtml_images (slug : List Char) (stepPs : Option (List (List Char)))
    (gs : List (List (List Char))) :
    stepsHtmlChars slug "images".data stepPs (some gs)
      = joinSep "\n\n".data (rowsFrom slug 1 gs) := by
  unfold stepsHtmlChars
  rw [if_pos rfl]

theorem stepsHtml_centered (slug : List Char) (ps : List (List Char))
    (groups : Option (List (List (List Char)))) :
    stepsHtmlChars slug "centered".data (some ps) groups
      = joinSep "\n".data (ps.map paraLine) := by
  unfold stepsHtmlChars
  rw [if_neg (by decide), if_pos rfl]

theorem stepsClass_centered :
    stepsClassChars "centered".data = "project-steps centered-text".data := by decide

theorem stepsClass_images :
    stepsClassChars "images".data = "project-steps".data := by decide

theorem rows_decomp (slug : List Char) (gs : List (List (List Char))) :
    ∀ (i : Nat) (h : i < gs.length) (k : Nat),
      ∃ a b, joinSep "\n\n".data (rowsFrom slug k gs)
        = a ++ (rowFor slug (k + i) (gs.get ⟨i, h⟩) ++ b) := by
  induction gs with
  | nil => intro i h k; simp at h
  | cons g gs ih =>
    intro i h k
    cases i with
    | zero =>
      cases gs with
      | nil =>
        refine ⟨[], [], ?_⟩
        show rowFor slug k g = _
        simp
      | cons g2 gs2 =>
        refine ⟨[], "\n\n".data
          ++ joinSep "\n\n".data (rowsFrom slug (k + 1) (g2 :: gs2)), ?_⟩
        show rowFor slug k g ++ _ = _
        simp [rowsFrom]
    | succ j =>
      cases gs with
      | nil => simp at h
      | cons g2 gs2 =>
        obtain ⟨a, b, hab⟩ := ih j (by simpa using Nat.lt_of_succ_lt_succ h) (k + 1)
        refine ⟨rowFor slug k g ++ ("\n\n".data ++ a), b, ?_⟩
        show rowFor slug k g ++ ("\n\n".data
          ++ joinSep "\n\n".data (rowsFrom slug (k + 1) (g2 :: gs2))) = _
        rw [hab, show k + 1 + j = k + (j + 1) from by omega]
        simp [List.append_assoc]

/-- **C4.** In image layout the rendered page contains exactly one
step-image reference per step, named `step_1.jpg` .. `step_n.jpg` in
increasing order of appearance (the scan of the whole output returns exactly
`[1, ..., n]`), and each step's row — its image reference immediately
followed by that step's paragraphs in input order — appears verbatim in the
output. -/
theorem render_images_steps (slug title : List Char) (descs : List (List Char))
    (gs : List (List (List Char))) (hslug : ∀ c ∈ slug, isSlugChar c = true) :
    stepRefs slug (renderChars slug title descs "images".data none (some gs))
      = List.range' 1 gs.length
    ∧ ∀ (i : Nat) (h : i < gs.length), ∃ pre post,
        renderChars slug title descs "images".data none (some gs)
          = pre ++ (rowFor slug (1 + i) (gs.get ⟨i, h⟩) ++ post) := by
  constructor
  · rw [stepRefs_render slug hslug, stepsHtml_images]
    exact stepRefs_rows slug hslug tplA14 (stepRefs_zero_of_noStart (by decide)) 1 gs
  · intro i h
    obtain ⟨a, b, hab⟩ := rows_decomp slug gs i h 1
    refine ⟨tplA1 ++ (metaDesc ++ (htmlEscape (descJoinChars descs) ++ (tplA2 ++ (slug ++
      (tplA3 ++ (htmlEscape title ++ (tplA4 ++ (htmlEscape title ++ (tplA5 ++
      (joinSep "\n".data (descs.map descLine) ++ (tplA6 ++ (mk1 ++ (slug ++ (tplA7 ++
      (htmlEscape title ++ (tplA8 ++ (mk1 ++ (slug ++ (tplA9 ++ (htmlEscape title ++
      (tplA10 ++ (mk1 ++ (slug ++ (tplA11 ++ (htmlEscape title ++ (tplA12 ++
      (stepsClassChars "images".data ++ (tplA13 ++ a)))))))))))))))))))))))))))),
      b ++ tplA14, ?_⟩
    unfold renderChars
    rw [stepsHtml_images, hab]
    simp [List.append_assoc]

/-- Witness for C4 at a concrete input: slug `test`, one description
paragraph, two steps with one paragraph each. -/
theorem render_images_steps_witness :
    (∀ c ∈ "test".data, isSlugChar c = true)
    ∧ (stepRefs "test".data (renderChars "test".data "T".data ["D".data] "images".data
          none (some [["A".data], ["B".data]]))
        = List.range' 1 ([["A".data], ["B".data]] : List (List (List Char))).length
      ∧ ∀ (i : Nat) (h : i < ([["A".data], ["B".data]] : List (List (List Char))).length),
          ∃ pre post,
            renderChars "test".data "T".data ["D".data] "images".data
                none (some [["A".data], ["B".data]])
              = pre ++ (rowFor "test".data (1 + i)
                  (([["A".data], ["B".data]] : List (List (List Char))).get ⟨i, h⟩) ++ post)) :=
  ⟨by decide, render_images_steps "test".data "T".data ["D".data]
    [["A".data], ["B".data]] (by decide)⟩

theorem isPrefixOf_rfl (x : List Char) : x.isPrefixOf x = true := by
  have := isPrefixOf_append_self x []
  rwa [List.append_nil] at this

theorem countFrom_joinSep {pat sep : List Char} {parts : List (List Char)}
    (hsep : ∀ b2, countFrom pat sep b2 = 0)
    (hp : ∀ p ∈ parts, ∀ b2, countFrom pat p b2 = 0) (b : List Char) :
    countFrom pat (joinSep sep parts) b = 0 := by
  induction parts generalizing b with
  | nil => rfl
  | cons p ps ih =>
    cases ps with
    | nil => exact hp p (by simp) b
    | cons q qs =>
      show countFrom pat (p ++ (sep ++ joinSep sep (q :: qs))) b = 0
      rw [countFrom_append, countFrom_append, hp p (by simp), hsep,
        ih (fun x hx b2 => hp x (by simp [hx]) b2)]

theorem countFrom_descLine {pat : List Char} (h0 : pat.head? = some '<')
    (hpre : noStartAt pat "                <p>".data = true)
    (hsuf : noStartAt pat "</p>".data = true) (p b : List Char) :
    countFrom pat (descLine p) b = 0 := by
  unfold descLine
  rw [countFrom_append, countFrom_append,
    countFrom_zero_of_noStart _ (isPrefixOf_rfl pat) hpre,
    countFrom_zero_of_headFree _ h0 (fun c hc => (htmlEscape_raw_free hc).1),
    countFrom_zero_of_noStart _ (isPrefixOf_rfl pat) hsuf]

theorem countFrom_paraLine {pat : List Char} (h0 : pat.head? = some '<')
    (hpre : noStartAt pat "                        <p>".data = true)
    (hsuf : noStartAt pat "</p>".data = true) (p b : List Char) :
    countFrom pat (paraLine p) b = 0 := by
  unfold paraLine
  rw [countFrom_append, countFrom_append,
    countFrom_zero_of_noStart _ (isPrefixOf_rfl pat) hpre,
    countFrom_zero_of_headFree _ h0 (fun c hc => (htmlEscape_raw_free hc).1),
    countFrom_zero_of_noStart _ (isPrefixOf_rfl pat) hsuf]

theorem mem_rowsFrom {slug : List Char} {p : List Char} :
    ∀ {i : Nat} {gs : List (List (List Char))}, p ∈ rowsFrom slug i gs →
      ∃ k g, p = rowFor slug k g := by
  intro i gs
  induction gs generalizing i with
  | nil => intro h; simp [rowsFrom] at h
  | cons g gs ih =>
    intro h
    unfold rowsFrom at h
    rcases List.mem_cons.1 h with h | h
    · exact ⟨i, g, h⟩
    · exact ih h

theorem countFrom_rowFor {pat : List Char} (h0 : pat.head? = some '<')
    (hr1 : noStartAt pat rowA0 = true) (hmk : noStartAt pat mk1 = true)
    (hr2 : noStartAt pat rowC = true) (hr3 : noStartAt pat rowD = true)
    (hr4 : noStartAt pat rowE = true)
    (hpl : noStartAt pat "                        <p>".data = true)
    (hpr : noStartAt pat "</p>".data = true)
    (slug : List Char) (hslug : ∀ c ∈ slug, isSlugChar c = true)
    (k : Nat) (g : List (List Char)) (b : List Char) :
    countFrom pat (rowFor slug k g) b = 0 := by
  have hlt : ∀ c ∈ slug, c ≠ '<' := fun c hc => (slugChar_ne (hslug c hc)).1
  have hdig : ∀ i2 : Nat, ∀ c ∈ natDigits i2, c ≠ '<' :=
    fun i2 c hc => (digitChar_ne (natDigits_digits i2 c hc)).1
  unfold rowFor
  simp only [List.append_assoc, countFrom_append]
  rw [countFrom_zero_of_noStart _ (isPrefixOf_rfl pat) hr1,
    countFrom_zero_of_noStart _ (isPrefixOf_rfl pat) hmk,
    countFrom_zero_of_headFree _ h0 hlt,
    countFrom_zero_of_headFree _ h0 (by decide),
    countFrom_zero_of_headFree _ h0 (hdig k),
    countFrom_zero_of_noStart _ (isPrefixOf_rfl pat) hr2,
    countFrom_zero_of_headFree _ h0 (hdig k),
    countFrom_zero_of_noStart _ (isPrefixOf_rfl pat) hr3,
    countFrom_joinSep (fun b2 => countFrom_zero_of_headFree b2 h0 (by decide))
      (fun q hq b2 => by
        rcases List.mem_map.1 hq with ⟨r, _, rfl⟩
        exact countFrom_paraLine h0 hpl hpr r b2),
    countFrom_zero_of_noStart _ (isPrefixOf_rfl pat) hr4]

/-- For a pattern that starts with `<` and cannot start anywhere in the fixed
template up to the steps container (nor in escaped text, the slug, or a digit
string), counting over the whole render output reduces to counting over the
tail that starts at the steps-container `div`. -/
theorem countOcc_render_walk (pat : List Char) (h0 : pat.head? = some '<')
    (h1 : noStartAt pat tplA1 = true) (h2 : noStartAt pat metaDesc = true)
    (h3 : noStartAt pat tplA2 = true) (h4 : noStartAt pat tplA3 = true)
    (h5 : noStartAt pat tplA4 = true) (h6 : noStartAt pat tplA5 = true)
    (hdl : noStartAt pat "                <p>".data = true)
    (hdr : noStartAt pat "</p>".data = true)
    (h7 : noStartAt pat tplA6 = true) (hmk : noStartAt pat mk1 = true)
    (h8 : noStartAt pat tplA7 = true) (h9 : noStartAt pat tplA8 = true)
    (h10 : noStartAt pat tplA9 = true) (h11 : noStartAt pat tplA10 = true)
    (h12 : noStartAt pat tplA11 = true)
    (slug title : List Char) (descs : List (List Char)) (mode : List Char)
    (stepPs : Option (List (List Char))) (groups : Option (List (List (List Char))))
    (hslug : ∀ c ∈ slug, isSlugChar c = true) :
    countOcc pat (renderChars slug title descs mode stepPs groups)
      = countOcc pat (tplA12 ++ (stepsClassChars mode
          ++ (tplA13 ++ (stepsHtmlChars slug mode stepPs groups ++ tplA14)))) := by
  have hlt : ∀ c ∈ slug, c ≠ '<' := fun c hc => (slugChar_ne (hslug c hc)).1
  have hesc : ∀ t : List Char, ∀ c ∈ htmlEscape t, c ≠ '<' :=
    fun t c hc => (htmlEscape_raw_free hc).1
  unfold renderChars
  simp only [countOcc_append]
  rw [countFrom_zero_of_noStart _ (isPrefixOf_rfl pat) h1,
    countFrom_zero_of_noStart _ (isPrefixOf_rfl pat) h2,
    countFrom_zero_of_headFree _ h0 (hesc _),
    countFrom_zero_of_noStart _ (isPrefixOf_rfl pat) h3,
    countFrom_zero_of_headFree _ h0 hlt,
    countFrom_zero_of_noStart _ (isPrefixOf_rfl pat) h4,
    countFrom_zero_of_headFree _ h0 (hesc _),
    countFrom_zero_of_noStart _ (isPrefixOf_rfl pat) h5,
    countFrom_zero_of_headFree _ h0 (hesc _),
    countFrom_zero_of_noStart _ (isPrefixOf_rfl pat) h6,
    countFrom_joinSep (fun b2 => countFrom_zero_of_headFree b2 h0 (by decide))
      (fun q hq b2 => by
        rcases List.mem_map.1 hq with ⟨r, _, rfl⟩
        exact countFrom_descLine h0 hdl hdr r b2),
    countFrom_zero_of_noStart _ (isPrefixOf_rfl pat) h7,
    countFrom_zero_of_noStart _ (isPrefixOf_rfl pat) hmk,
    countFrom_zero_of_headFree _ h0 hlt,
    countFrom_zero_of_noStart _ (isPrefixOf_rfl pat) h8,
    countFrom_zero_of_headFree _ h0 (hesc _),
    countFrom_zero_of_noStart _ (isPrefixOf_rfl pat) h9,
    countFrom_zero_of_noStart _ (isPrefixOf_rfl pat) hmk,
    countFrom_zero_of_headFree _ h0 hlt,
    countFrom_zero_of_noStart _ (isPrefixOf_rfl pat) h10,
    countFrom_zero_of_headFree _ h0 (hesc _),
    countFrom_zero_of_noStart _ (isPrefixOf_rfl pat) h11,
    countFrom_zero_of_noStart _ (isPrefixOf_rfl pat) hmk,
    countFrom_zero_of_headFree _ h0 hlt,
    countFrom_zero_of_noStart _ (isPrefixOf_rfl pat) h12,
    countFrom_zero_of_headFree _ h0 (hesc _)]
  omega

/-- The steps container of the centered layout:
`<div class="project-steps centered-text">`. -/
def centeredPat : List Char := "<div class=\x22project-steps centered-text\x22>".data

/-- The common `div` opener `<div class="`. -/
def divOpen : List Char := "<div class=\x22".data

/-- The rest of `centeredPat` after `divOpen`. -/
def clsQuote : List Char := "project-steps centered-text\x22>".data

theorem countFrom_divOpen (REST : List Char) :
    countFrom centeredPat divOpen REST
      = if clsQuote.isPrefixOf REST = true then 1 else 0 := by
  have hd : divOpen = '<' :: "div class=\x22".data := by decide
  rw [hd, countFrom_cons]
  have hassoc : '<' :: ("div class=\x22".data ++ REST) = divOpen ++ REST := by
    rw [hd]
    rfl
  rw [hassoc]
  have hsplit : centeredPat = divOpen ++ clsQuote := by decide
  rw [hsplit, isPrefixOf_append_cancel divOpen clsQuote REST,
    countFrom_zero_of_headFree REST (show (divOpen ++ clsQuote).head? = some '<' by decide)
      (by decide)]
  omega

theorem tplA12_split : tplA12 = " bild 3\x22>\n            </div>\n            \n            <h2>Hur den gjordes</h2>\n            \n            ".data ++ divOpen := by decide

theorem clsQuote_centered (X : List Char) :
    clsQuote.isPrefixOf ("project-steps centered-text".data ++ (tplA13 ++ X)) = true := by
  have h1 : clsQuote = "project-steps centered-text".data ++ "\x22>".data := by decide
  have h2 : tplA13 ++ X = "\x22>".data ++ ("\n".data ++ X) := by
    have : tplA13 = "\x22>".data ++ "\n".data := by decide
    rw [this, List.append_assoc]
  rw [h1, isPrefixOf_append_cancel, h2]
  exact isPrefixOf_append_self _ _

theorem clsQuote_images (X : List Char) :
    clsQuote.isPrefixOf ("project-steps".data ++ (tplA13 ++ X)) = false := by
  have h1 : clsQuote = "project-steps".data ++ " centered-text\x22>".data := by decide
  rw [h1, isPrefixOf_append_cancel]
  exact not_prefix_into _ _ _ (by decide) (by decide)

theorem countOcc_steps_tail_centered (slug : List Char)
    (hslug : ∀ c ∈ slug, isSlugChar c = true) (ps : List (List Char)) :
    countOcc centeredPat (tplA12 ++ (stepsClassChars "centered".data
      ++ (tplA13 ++ (stepsHtmlChars slug "centered".data (some ps) none ++ tplA14)))) = 1 := by
  rw [stepsHtml_centered, stepsClass_centered, tplA12_split]
  simp only [List.append_assoc, countOcc_append]
  rw [countFrom_zero_of_noStart _ (isPrefixOf_rfl centeredPat) (by decide),
    countFrom_divOpen,
    if_pos (clsQuote_centered _),
    countFrom_zero_of_headFree _ (show centeredPat.head? = some '<' from rfl) (by decide),
    countFrom_zero_of_noStart _ (isPrefixOf_rfl centeredPat) (by decide),
    countFrom_joinSep
      (fun b2 => countFrom_zero_of_headFree b2 (show centeredPat.head? = some '<' from rfl)
        (by decide))
      (fun q hq b2 => by
        rcases List.mem_map.1 hq with ⟨r, _, rfl⟩
        exact countFrom_paraLine (show centeredPat.head? = some '<' from rfl)
          (by decide) (by decide) r b2),
    countOcc_zero_of_noStart (isPrefixOf_rfl centeredPat) (by decide)]

theorem countOcc_steps_tail_images (slug : List Char)
    (hslug : ∀ c ∈ slug, isSlugChar c = true) (gs : List (List (List Char))) :
    countOcc centeredPat (tplA12 ++ (stepsClassChars "images".data
      ++ (tplA13 ++ (stepsHtmlChars slug "images".data none (some gs) ++ tplA14)))) = 0 := by
  rw [stepsHtml_images, stepsClass_images, tplA12_split]
  simp only [List.append_assoc, countOcc_append]
  rw [countFrom_zero_of_noStart _ (isPrefixOf_rfl centeredPat) (by decide),
    countFrom_divOpen,
    if_neg (by rw [clsQuote_images]; exact Bool.false_ne_true),
    countFrom_zero_of_headFree _ (show centeredPat.head? = some '<' from rfl) (by decide),
    countFrom_zero_of_noStart _ (isPrefixOf_rfl centeredPat) (by decide),
    countFrom_joinSep
      (fun b2 => countFrom_zero_of_headFree b2 (show centeredPat.head? = some '<' from rfl)
        (by decide))
      (fun q hq b2 => by
        obtain ⟨k, g, rfl⟩ := mem_rowsFrom hq
        exact countFrom_rowFor (show centeredPat.head? = some '<' from rfl)
          (by decide) (by decide) (by decide) (by decide)
          (by decide) (by decide) (by decide) slug hslug k g b2),
    countOcc_zero_of_noStart (isPrefixOf_rfl centeredPat) (by decide)]

/-- **C5.** For every input, the centered layout emits zero step-image
references and its steps container carries the `centered-text` modifier
(the full container tag `<div class="project-steps centered-text">` occurs
exactly once), while the image layout never carries that modifier. -/
theorem render_centered_layout (slug title : List Char) (descs : List (List Char))
    (hslug : ∀ c ∈ slug, isSlugChar c = true) :
    (∀ ps : List (List Char),
      stepRefs slug (renderChars slug title descs "centered".data (some ps) none) = []
      ∧ countOcc centeredPat
          (renderChars slug title descs "centered".data (some ps) none) = 1)
    ∧ (∀ gs : List (List (List Char)),
      countOcc centeredPat
        (renderChars slug title descs "images".data none (some gs)) = 0) := by
  constructor
  · intro ps
    constructor
    · rw [stepRefs_render slug hslug, stepsHtml_centered, stepRefs_append,
        refsFrom_paraBlock, stepRefs_zero_of_noStart (by decide)]
      rfl
    · rw [countOcc_render_walk centeredPat rfl (by decide) (by decide) (by decide)
        (by decide) (by decide) (by decide) (by decide) (by decide) (by decide)
        (by decide) (by decide) (by decide) (by decide) (by decide) (by decide)
        slug title descs "centered".data (some ps) none hslug]
      exact countOcc_steps_tail_centered slug hslug ps
  · intro gs
    rw [countOcc_render_walk centeredPat rfl (by decide) (by decide) (by decide)
      (by decide) (by decide) (by decide) (by decide) (by decide) (by decide)
      (by decide) (by decide) (by decide) (by decide) (by decide) (by decide)
      slug title descs "images".data none (some gs) hslug]
    exact countOcc_steps_tail_images slug hslug gs

/-- Witness for C5 at a concrete input. -/
theorem render_centered_layout_witness :
    (∀ c ∈ "test".data, isSlugChar c = true)
    ∧ ((∀ ps : List (List Char),
        stepRefs "test".data
          (renderChars "test".data "T".data ["D".data] "centered".data (some ps) none) = []
        ∧ countOcc centeredPat
            (renderChars "test".data "T".data ["D".data] "centered".data (some ps) none) = 1)
      ∧ (∀ gs : List (List (List Char)),
        countOcc centeredPat
          (renderChars "test".data "T".data ["D".data] "images".data none (some gs)) = 0)) :=
  ⟨by decide, render_centered_layout "test".data "T".data ["D".data] (by decide)⟩

theorem stepsClass_lt_free (mode : List Char) :
    ∀ c ∈ stepsClassChars mode, c ≠ '<' := by
  intro c hc
  unfold stepsClassChars at hc
  rcases List.mem_append.1 hc with hc | hc
  · exact (by decide : ∀ x ∈ "project-steps".data, x ≠ '<') c hc
  · by_cases hm : mode = "centered".data
    · rw [if_pos hm] at hc
      exact (by decide : ∀ x ∈ " centered-text".data, x ≠ '<') c hc
    · rw [if_neg hm] at hc
      simp at hc

theorem countFrom_self (pat : List Char) (p0 : Char) (pt : List Char)
    (hp : pat = p0 :: pt) (htail : ∀ c ∈ pt, c ≠ p0) (b : List Char) :
    countFrom pat pat b = 1 := by
  nth_rewrite 2 [hp]
  rw [countFrom_cons]
  have hassoc : p0 :: (pt ++ b) = pat ++ b := by
    rw [hp]
    rfl
  rw [hassoc, if_pos (isPrefixOf_append_self pat b),
    countFrom_zero_of_headFree b (by rw [hp]; rfl) htail]

theorem countFrom_stepsHtml {pat : List Char} (h0 : pat.head? = some '<')
    (hr1 : noStartAt pat rowA0 = true) (hmk : noStartAt pat mk1 = true)
    (hr2 : noStartAt pat rowC = true) (hr3 : noStartAt pat rowD = true)
    (hr4 : noStartAt pat rowE = true)
    (hpl : noStartAt pat "                        <p>".data = true)
    (hpr : noStartAt pat "</p>".data = true)
    (slug : List Char) (hslug : ∀ c ∈ slug, isSlugChar c = true)
    (mode : List Char) (stepPs : Option (List (List Char)))
    (groups : Option (List (List (List Char)))) (b : List Char) :
    countFrom pat (stepsHtmlChars slug mode stepPs groups) b = 0 := by
  unfold stepsHtmlChars
  by_cases hm : mode = "images".data
  · rw [if_pos hm]
    cases groups with
    | none => rfl
    | some gs =>
      exact countFrom_joinSep (fun b2 => countFrom_zero_of_headFree b2 h0 (by decide))
        (fun q hq b2 => by
          obtain ⟨k, g, rfl⟩ := mem_rowsFrom hq
          exact countFrom_rowFor h0 hr1 hmk hr2 hr3 hr4 hpl hpr slug hslug k g b2) b
  · rw [if_neg hm]
    by_cases hm2 : mode = "centered".data
    · rw [if_pos hm2]
      cases stepPs with
      | none => rfl
      | some ps =>
        exact countFrom_joinSep (fun b2 => countFrom_zero_of_headFree b2 h0 (by decide))
          (fun q hq b2 => by
            rcases List.mem_map.1 hq with ⟨r, _, rfl⟩
            exact countFrom_paraLine h0 hpl hpr r b2) b
    · rw [if_neg hm2]
      rfl

/-- **C6.** The meta description attribute of the rendered page is exactly
the description paragraphs individually trimmed (`pyStrip`), with
empty-after-trim paragraphs dropped, joined with a single space
(`descJoinChars`), HTML-escaped once on the joined whole — it appears
verbatim between `content="` and the closing quote (the escaped value
contains no quote that could terminate the attribute early), and the page
has exactly one `<meta name="description"` tag. -/
theorem render_meta_description (slug title : List Char) (descs : List (List Char))
    (mode : List Char) (stepPs : Option (List (List Char)))
    (groups : Option (List (List (List Char))))
    (hslug : ∀ c ∈ slug, isSlugChar c = true) :
    (∃ post, renderChars slug title descs mode stepPs groups
        = tplA1 ++ (metaDesc ++ (htmlEscape (descJoinChars descs) ++ (qm :: post))))
    ∧ (∀ c ∈ htmlEscape (descJoinChars descs), c ≠ qm)
    ∧ countOcc metaDesc (renderChars slug title descs mode stepPs groups) = 1 := by
  have h0 : metaDesc.head? = some '<' := rfl
  have hlt : ∀ c ∈ slug, c ≠ '<' := fun c hc => (slugChar_ne (hslug c hc)).1
  have hesc : ∀ t : List Char, ∀ c ∈ htmlEscape t, c ≠ '<' :=
    fun t c hc => (htmlEscape_raw_free hc).1
  refine ⟨?_, fun c hc => (htmlEscape_raw_free hc).2.2.1, ?_⟩
  · have h2 : tplA2 = qm :: ">        \n    <meta property=\x22og:image\x22 content=\x22https://philipwallin.pw/images/projects/".data := by
      decide
    exact ⟨_, by unfold renderChars; rw [h2]; rfl⟩
  · unfold renderChars
    simp only [countOcc_append]
    rw [countFrom_zero_of_noStart _ (isPrefixOf_rfl metaDesc) (by decide),
      countFrom_self metaDesc '<' "meta name=\x22description\x22 content=\x22".data
        (by decide) (by decide),
      countFrom_zero_of_headFree _ h0 (hesc _),
      countFrom_zero_of_noStart _ (isPrefixOf_rfl metaDesc) (by decide),
      countFrom_zero_of_headFree _ h0 hlt,
      countFrom_zero_of_noStart _ (isPrefixOf_rfl metaDesc) (by decide),
      countFrom_zero_of_headFree _ h0 (hesc _),
      countFrom_zero_of_noStart _ (isPrefixOf_rfl metaDesc) (by decide),
      countFrom_zero_of_headFree _ h0 (hesc _),
      countFrom_zero_of_noStart _ (isPrefixOf_rfl metaDesc) (by decide),
      countFrom_joinSep (fun b2 => countFrom_zero_of_headFree b2 h0 (by decide))
        (fun q hq b2 => by
          rcases List.mem_map.1 hq with ⟨r, _, rfl⟩
          exact countFrom_descLine h0 (by decide) (by decide) r b2),
      countFrom_zero_of_noStart _ (isPrefixOf_rfl metaDesc) (by decide),
      countFrom_zero_of_noStart _ (isPrefixOf_rfl metaDesc) (by decide),
      countFrom_zero_of_headFree _ h0 hlt,
      countFrom_zero_of_noStart _ (isPrefixOf_rfl metaDesc) (by decide),
      countFrom_zero_of_headFree _ h0 (hesc _),
      countFrom_zero_of_noStart _ (isPrefixOf_rfl metaDesc) (by decide),
      countFrom_zero_of_noStart _ (isPrefixOf_rfl metaDesc) (by decide),
      countFrom_zero_of_headFree _ h0 hlt,
      countFrom_zero_of_noStart _ (isPrefixOf_rfl metaDesc) (by decide),
      countFrom_zero_of_headFree _ h0 (hesc _),
      countFrom_zero_of_noStart _ (isPrefixOf_rfl metaDesc) (by decide),
      countFrom_zero_of_noStart _ (isPrefixOf_rfl metaDesc) (by decide),
      countFrom_zero_of_headFree _ h0 hlt,
      countFrom_zero_of_noStart _ (isPrefixOf_rfl metaDesc) (by decide),
      countFrom_zero_of_headFree _ h0 (hesc _),
      countFrom_zero_of_noStart _ (isPrefixOf_rfl metaDesc) (by decide),
      countFrom_zero_of_headFree _ h0 (stepsClass_lt_free mode),
      countFrom_zero_of_noStart _ (isPrefixOf_rfl metaDesc) (by decide),
      countFrom_stepsHtml h0 (by decide) (by decide) (by decide) (by decide)
        (by decide) (by decide) (by decide) slug hslug mode stepPs groups,
      countOcc_zero_of_noStart (isPrefixOf_rfl metaDesc) (by decide)]

/-- Witness for C6 at a concrete input. -/
theorem render_meta_description_witness :
    (∀ c ∈ "test".data, isSlugChar c = true)
    ∧ ((∃ post, renderChars "test".data "T".data [" He llo ".data, "  ".data]
          "centered".data (some ["A".data]) none
        = tplA1 ++ (metaDesc ++ (htmlEscape (descJoinChars [" He llo ".data, "  ".data])
            ++ (qm :: post))))
      ∧ (∀ c ∈ htmlEscape (descJoinChars [" He llo ".data, "  ".data]), c ≠ qm)
      ∧ countOcc metaDesc (renderChars "test".data "T".data
          [" He llo ".data, "  ".data] "centered".data (some ["A".data]) none) = 1) :=
  ⟨by decide, render_meta_description "test".data "T".data
    [" He llo ".data, "  ".data] "centered".data (some ["A".data]) none (by decide)⟩

theorem tplA3_split : tplA3 = "/main_2.jpg\x22>    \n    ".data ++ "<title>".data := by
  decide

theorem tplA4_split : tplA4 = " - Philip Wallin</title>".data ++ ("    \n    <link rel=\x22icon\x22 type=\x22image/x-icon\x22 href=\x22../images/favicon.ico\x22>    \n    <link rel=\x22stylesheet\x22 href=\x22../style.css\x22>\n</head>\n<body>\n    <nav>\n        <div class=\x22logo\x22>\n            <a href=\x22../index.html\x22><img src=\x22../images/logo.png\x22 alt=\x22Logo\x22></a>\n        </div>\n        <ul class=\x22nav-links\x22>\n            <li><a href=\x22../index.html\x22>Projekt</a></li>\n            <li><a href=\x22../om_mig.html\x22>Om mig</a></li>\n        </ul>\n    </nav>\n    \n    <section class=\x22project-detail\x22>\n        ".data ++ "<h1>".data) := by
  decide

theorem tplA5_split : tplA5 = "</h1>".data ++ "\n        <div class=\x22project-content\x22>\n            <div class=\x22project-description\x22>\n".data := by
  decide

theorem tplA7_split : tplA7 = "/main_1.jpg\x22".data ++ " alt=\x22".data := by decide

theorem tplA9_split : tplA9 = "/main_2.jpg\x22".data ++ " alt=\x22".data := by decide

theorem tplA11_split : tplA11 = "/main_3.jpg\x22".data ++ " alt=\x22".data := by decide

theorem tplA8_split : tplA8 = " bild 1\x22>".data ++ "\n                ".data := by decide

theorem tplA10_split : tplA10 = " bild 2\x22>".data ++ "\n                ".data := by decide

theorem tplA12_split2 : tplA12 = " bild 3\x22>".data ++ "\n            </div>\n            \n            <h2>Hur den gjordes</h2>\n            \n            <div class=\x22".data := by
  decide

/-- **C7, counterexample.** At a concrete input (title `Test`), the escaped
title appears inside image `alt` text three times — once per main image —
not twice as the specification states. -/
theorem render_title_alt_counterexample :
    countOcc (" alt=\x22Test bild ".data)
      (renderChars "test".data "Test".data ["Hello".data] "centered".data
        (some ["A".data, "B".data]) none) = 3 ∧ (3 : Nat) ≠ 2 :=
  ⟨by decide, by decide⟩

/-- **C7, amended.** For every input, the escaped title appears in the page
heading (`<h1>...</h1>`), in the title element (`<title>... - Philip
Wallin</title>`), and three times inside image alt text (`alt="{title} bild
k">` for `k = 1, 2, 3`, once per main image); the page contains exactly one
`<h1>` and exactly one `<title>` tag, so the heading and title occurrences
are the unique ones. -/
theorem render_title_occurrences (slug title : List Char) (descs : List (List Char))
    (mode : List Char) (stepPs : Option (List (List Char)))
    (groups : Option (List (List (List Char))))
    (hslug : ∀ c ∈ slug, isSlugChar c = true) :
    (∃ p0 p1 p2 p3 p4 p5, renderChars slug title descs mode stepPs groups
      = p0 ++ ("<title>".data ++ (htmlEscape title ++ (" - Philip Wallin</title>".data
        ++ (p1 ++ ("<h1>".data ++ (htmlEscape title ++ ("</h1>".data
        ++ (p2 ++ (" alt=\x22".data ++ (htmlEscape title ++ (" bild 1\x22>".data
        ++ (p3 ++ (" alt=\x22".data ++ (htmlEscape title ++ (" bild 2\x22>".data
        ++ (p4 ++ (" alt=\x22".data ++ (htmlEscape title
        ++ (" bild 3\x22>".data ++ p5))))))))))))))))))))
    ∧ countOcc "<h1>".data (renderChars slug title descs mode stepPs groups) = 1
    ∧ countOcc "<title>".data (renderChars slug title descs mode stepPs groups) = 1 := by
  have hlt : ∀ c ∈ slug, c ≠ '<' := fun c hc => (slugChar_ne (hslug c hc)).1
  have hesc : ∀ t : List Char, ∀ c ∈ htmlEscape t, c ≠ '<' :=
    fun t c hc => (htmlEscape_raw_free hc).1
  refine ⟨?_, ?_, ?_⟩
  · refine ⟨tplA1 ++ (metaDesc ++ (htmlEscape (descJoinChars descs)
      ++ (tplA2 ++ (slug ++ "/main_2.jpg\x22>    \n    ".data)))),
      "    \n    <link rel=\x22icon\x22 type=\x22image/x-icon\x22 href=\x22../images/favicon.ico\x22>    \n    <link rel=\x22stylesheet\x22 href=\x22../style.css\x22>\n</head>\n<body>\n    <nav>\n        <div class=\x22logo\x22>\n            <a href=\x22../index.html\x22><img src=\x22../images/logo.png\x22 alt=\x22Logo\x22></a>\n        </div>\n        <ul class=\x22nav-links\x22>\n            <li><a href=\x22../index.html\x22>Projekt</a></li>\n            <li><a href=\x22../om_mig.html\x22>Om mig</a></li>\n        </ul>\n    </nav>\n    \n    <section class=\x22project-detail\x22>\n        ".data,
      "\n        <div class=\x22project-content\x22>\n            <div class=\x22project-description\x22>\n".data
        ++ (joinSep "\n".data (descs.map descLine)
          ++ (tplA6 ++ (mk1 ++ (slug ++ "/main_1.jpg\x22".data)))),
      "\n                ".data ++ (mk1 ++ (slug ++ "/main_2.jpg\x22".data)),
      "\n                ".data ++ (mk1 ++ (slug ++ "/main_3.jpg\x22".data)),
      "\n            </div>\n            \n            <h2>Hur den gjordes</h2>\n            \n            <div class=\x22".data
        ++ (stepsClassChars mode ++ (tplA13
          ++ (stepsHtmlChars slug mode stepPs groups ++ tplA14))), ?_⟩
    unfold renderChars
    rw [tplA3_split, tplA4_split, tplA5_split, tplA7_split, tplA8_split, tplA9_split,
      tplA10_split, tplA11_split, tplA12_split2]
    simp [List.append_assoc]
  · unfold renderChars
    rw [tplA4_split]
    simp only [List.append_assoc, countOcc_append]
    rw [countFrom_zero_of_noStart _ (isPrefixOf_rfl "<h1>".data) (by decide),
      countFrom_zero_of_noStart _ (isPrefixOf_rfl "<h1>".data) (by decide),
      countFrom_zero_of_headFree _ (show ("<h1>".data : List Char).head? = some '<' from rfl) (hesc _),
      countFrom_zero_of_noStart _ (isPrefixOf_rfl "<h1>".data) (by decide),
      countFrom_zero_of_headFree _ (show ("<h1>".data : List Char).head? = some '<' from rfl) hlt,
      countFrom_zero_of_noStart _ (isPrefixOf_rfl "<h1>".data) (by decide),
      countFrom_zero_of_headFree _ (show ("<h1>".data : List Char).head? = some '<' from rfl) (hesc _),
      countFrom_zero_of_noStart _ (isPrefixOf_rfl "<h1>".data) (by decide),
      countFrom_zero_of_noStart _ (isPrefixOf_rfl "<h1>".data) (by decide),
      countFrom_self "<h1>".data '<' "h1>".data (by decide) (by decide),
      countFrom_zero_of_headFree _ (show ("<h1>".data : List Char).head? = some '<' from rfl) (hesc _),
      countFrom_zero_of_noStart _ (isPrefixOf_rfl "<h1>".data) (by decide),
      countFrom_joinSep (fun b2 => countFrom_zero_of_headFree b2 (show ("<h1>".data : List Char).head? = some '<' from rfl) (by decide))
        (fun q hq b2 => by
          rcases List.mem_map.1 hq with ⟨r, _, rfl⟩
          exact countFrom_descLine (show ("<h1>".data : List Char).head? = some '<' from rfl) (by decide) (by decide) r b2),
      countFrom_zero_of_noStart _ (isPrefixOf_rfl "<h1>".data) (by decide),
      countFrom_zero_of_noStart _ (isPrefixOf_rfl "<h1>".data) (by decide),
      countFrom_zero_of_headFree _ (show ("<h1>".data : List Char).head? = some '<' from rfl) hlt,
      countFrom_zero_of_noStart _ (isPrefixOf_rfl "<h1>".data) (by decide),
      countFrom_zero_of_headFree _ (show ("<h1>".data : List Char).head? = some '<' from rfl) (hesc _),
      countFrom_zero_of_noStart _ (isPrefixOf_rfl "<h1>".data) (by decide),
      countFrom_zero_of_noStart _ (isPrefixOf_rfl "<h1>".data) (by decide),
      countFrom_zero_of_headFree _ (show ("<h1>".data : List Char).head? = some '<' from rfl) hlt,
      countFrom_zero_of_noStart _ (isPrefixOf_rfl "<h1>".data) (by decide),
      countFrom_zero_of_headFree _ (show ("<h1>".data : List Char).head? = some '<' from rfl) (hesc _),
      countFrom_zero_of_noStart _ (isPrefixOf_rfl "<h1>".data) (by decide),
      countFrom_zero_of_noStart _ (isPrefixOf_rfl "<h1>".data) (by decide),
      countFrom_zero_of_headFree _ (show ("<h1>".data : List Char).head? = some '<' from rfl) hlt,
      countFrom_zero_of_noStart _ (isPrefixOf_rfl "<h1>".data) (by decide),
      countFrom_zero_of_headFree _ (show ("<h1>".data : List Char).head? = some '<' from rfl) (hesc _),
      countFrom_zero_of_noStart _ (isPrefixOf_rfl "<h1>".data) (by decide),
      countFrom_zero_of_headFree _ (show ("<h1>".data : List Char).head? = some '<' from rfl) (stepsClass_lt_free mode),
      countFrom_zero_of_noStart _ (isPrefixOf_rfl "<h1>".data) (by decide),
      countFrom_stepsHtml (show ("<h1>".data : List Char).head? = some '<' from rfl) (by decide) (by decide) (by decide) (by decide)
        (by decide) (by decide) (by decide) slug hslug mode stepPs groups,
      countOcc_zero_of_noStart (isPrefixOf_rfl "<h1>".data) (by decide)]
  · unfold renderChars
    rw [tplA3_split]
    simp only [List.append_assoc, countOcc_append]
    rw [countFrom_zero_of_noStart _ (isPrefixOf_rfl "<title>".data) (by decide),
      countFrom_zero_of_noStart _ (isPrefixOf_rfl "<title>".data) (by decide),
      countFrom_zero_of_headFree _ (show ("<title>".data : List Char).head? = some '<' from rfl) (hesc _),
      countFrom_zero_of_noStart _ (isPrefixOf_rfl "<title>".data) (by decide),
      countFrom_zero_of_headFree _ (show ("<title>".data : List Char).head? = some '<' from rfl) hlt,
      countFrom_zero_of_noStart _ (isPrefixOf_rfl "<title>".data) (by decide),
      countFrom_self "<title>".data '<' "title>".data (by decide) (by decide),
      countFrom_zero_of_headFree _ (show ("<title>".data : List Char).head? = some '<' from rfl) (hesc _),
      countFrom_zero_of_noStart _ (isPrefixOf_rfl "<title>".data) (by decide),
      countFrom_zero_of_headFree _ (show ("<title>".data : List Char).head? = some '<' from rfl) (hesc _),
      countFrom_zero_of_noStart _ (isPrefixOf_rfl "<title>".data) (by decide),
      countFrom_joinSep (fun b2 => countFrom_zero_of_headFree b2 (show ("<title>".data : List Char).head? = some '<' from rfl) (by decide))
        (fun q hq b2 => by
          rcases List.mem_map.1 hq with ⟨r, _, rfl⟩
          exact countFrom_descLine (show ("<title>".data : List Char).head? = some '<' from rfl) (by decide) (by decide) r b2),
      countFrom_zero_of_noStart _ (isPrefixOf_rfl "<title>".data) (by decide),
      countFrom_zero_of_noStart _ (isPrefixOf_rfl "<title>".data) (by decide),
      countFrom_zero_of_headFree _ (show ("<title>".data : List Char).head? = some '<' from rfl) hlt,
      countFrom_zero_of_noStart _ (isPrefixOf_rfl "<title>".data) (by decide),
      countFrom_zero_of_headFree _ (show ("<title>".data : List Char).head? = some '<' from rfl) (hesc _),
      countFrom_zero_of_noStart _ (isPrefixOf_rfl "<title>".data) (by decide),
      countFrom_zero_of_noStart _ (isPrefixOf_rfl "<title>".data) (by decide),
      countFrom_zero_of_headFree _ (show ("<title>".data : List Char).head? = some '<' from rfl) hlt,
      countFrom_zero_of_noStart _ (isPrefixOf_rfl "<title>".data) (by decide),
      countFrom_zero_of_headFree _ (show ("<title>".data : List Char).head? = some '<' from rfl) (hesc _),
      countFrom_zero_of_noStart _ (isPrefixOf_rfl "<title>".data) (by decide),
      countFrom_zero_of_noStart _ (isPrefixOf_rfl "<title>".data) (by decide),
      countFrom_zero_of_headFree _ (show ("<title>".data : List Char).head? = some '<' from rfl) hlt,
      countFrom_zero_of_noStart _ (isPrefixOf_rfl "<title>".data) (by decide),
      countFrom_zero_of_headFree _ (show ("<title>".data : List Char).head? = some '<' from rfl) (hesc _),
      countFrom_zero_of_noStart _ (isPrefixOf_rfl "<title>".data) (by decide),
      countFrom_zero_of_headFree _ (show ("<title>".data : List Char).head? = some '<' from rfl) (stepsClass_lt_free mode),
      countFrom_zero_of_noStart _ (isPrefixOf_rfl "<title>".data) (by decide),
      countFrom_stepsHtml (show ("<title>".data : List Char).head? = some '<' from rfl) (by decide) (by decide) (by decide) (by decide)
        (by decide) (by decide) (by decide) slug hslug mode stepPs groups,
      countOcc_zero_of_noStart (isPrefixOf_rfl "<title>".data) (by decide)]

/-- Witness for C7 (amended) at a concrete input. -/
theorem render_title_occurrences_witness :
    (∀ c ∈ "test".data, isSlugChar c = true)
    ∧ ((∃ p0 p1 p2 p3 p4 p5, renderChars "test".data "T".data ["D".data]
          "centered".data (some ["A".data]) none
      = p0 ++ ("<title>".data ++ (htmlEscape "T".data
        ++ (" - Philip Wallin</title>".data
        ++ (p1 ++ ("<h1>".data ++ (htmlEscape "T".data ++ ("</h1>".data
        ++ (p2 ++ (" alt=\x22".data ++ (htmlEscape "T".data ++ (" bild 1\x22>".data
        ++ (p3 ++ (" alt=\x22".data ++ (htmlEscape "T".data ++ (" bild 2\x22>".data
        ++ (p4 ++ (" alt=\x22".data ++ (htmlEscape "T".data
        ++ (" bild 3\x22>".data ++ p5))))))))))))))))))))
      ∧ countOcc "<h1>".data (renderChars "test".data "T".data ["D".data]
          "centered".data (some ["A".data]) none) = 1
      ∧ countOcc "<title>".data (renderChars "test".data "T".data ["D".data]
          "centered".data (some ["A".data]) none) = 1) :=
  ⟨by decide, render_title_occurrences "test".data "T".data ["D".data]
    "centered".data (some ["A".data]) none (by decide)⟩

/-! ### Character counting toward the escaping claim. -/

/-- The five characters that `html.escape` rewrites. -/
def isSpecialChar (c : Char) : Bool :=
  c = '&' || c = '<' || c = '>' || c = qm || c = apos

/-- Total number of escapable characters in a text. -/
def specials (t : List Char) : Nat :=
  t.count '&' + t.count '<' + t.count '>' + t.count qm + t.count apos

/-- Sum of `count c` over a list of texts. -/
def sumCount (c : Char) (ts : List (List Char)) : Nat := (ts.map (List.count c)).sum

/-- Sum of `specials` over a list of texts. -/
def sumSpec (ts : List (List Char)) : Nat := (ts.map specials).sum

/-- Total number of paragraphs over all step groups. -/
def totalParas (gs : List (List (List Char))) : Nat := (gs.map List.length).sum

/-- The fixed markup of the template (all segments, with the three main-image
openers), with every hole removed. -/
def tplFixed : List Char :=
  tplA1 ++ (metaDesc ++ (tplA2 ++ (tplA3 ++ (tplA4 ++ (tplA5 ++ (tplA6 ++ (mk1
    ++ (tplA7 ++ (tplA8 ++ (mk1 ++ (tplA9 ++ (tplA10 ++ (mk1 ++ (tplA11
    ++ (tplA12 ++ (tplA13 ++ tplA14))))))))))))))))

/-- Fixed markup of one step row (everything except slug, index digits, and
the paragraphs). -/
def rowBase : List Char := rowA0 ++ (mk1 ++ (stepTag ++ (rowC ++ (rowD ++ rowE))))

/-- Fixed markup of one step paragraph line. -/
def paraBase : List Char := "                        <p>".data ++ "</p>".data

/-- Fixed markup of one description paragraph line. -/
def descBase : List Char := "                <p>".data ++ "</p>".data

theorem count_eq_zero_of_ne {a : Char} {l : List Char} (h : ∀ c ∈ l, c ≠ a) :
    l.count a = 0 :=
  List.count_eq_zero.2 fun hm => h a hm rfl

theorem count_htmlEscape_lt (t : List Char) : (htmlEscape t).count '<' = 0 :=
  count_eq_zero_of_ne fun _ hc => (htmlEscape_raw_free hc).1

theorem count_htmlEscape_gt (t : List Char) : (htmlEscape t).count '>' = 0 :=
  count_eq_zero_of_ne fun _ hc => (htmlEscape_raw_free hc).2.1

theorem count_htmlEscape_qm (t : List Char) : (htmlEscape t).count qm = 0 :=
  count_eq_zero_of_ne fun _ hc => (htmlEscape_raw_free hc).2.2.1

theorem count_htmlEscape_apos (t : List Char) : (htmlEscape t).count apos = 0 :=
  count_eq_zero_of_ne fun _ hc => (htmlEscape_raw_free hc).2.2.2

theorem count_escapeChar_amp (d : Char) :
    (escapeChar d).count '&' = if isSpecialChar d = true then 1 else 0 := by
  unfold escapeChar isSpecialChar
  by_cases h1 : d = '&'
  · subst h1; decide
  rw [if_neg h1]
  by_cases h2 : d = '<'
  · subst h2; decide
  rw [if_neg h2]
  by_cases h3 : d = '>'
  · subst h3; decide
  rw [if_neg h3]
  by_cases h4 : d = qm
  · subst h4; decide
  rw [if_neg h4]
  by_cases h5 : d = apos
  · subst h5; decide
  rw [if_neg h5, if_neg (by simp [h1, h2, h3, h4, h5])]
  simp [List.count_cons, h1]

theorem specials_cons (d : Char) (t : List Char) :
    specials (d :: t) = specials t + (if isSpecialChar d = true then 1 else 0) := by
  unfold specials isSpecialChar
  simp only [List.count_cons]
  by_cases h1 : d = '&'
  · subst h1
    rw [if_pos (show ((decide ('&' = '&') || decide ('&' = '<') || decide ('&' = '>')
      || decide ('&' = qm) || decide ('&' = apos)) = true) from by decide),
      if_pos (show (('&' == '&') = true) from by decide),
      if_neg (show ¬(('&' == '<') = true) from by decide),
      if_neg (show ¬(('&' == '>') = true) from by decide),
      if_neg (show ¬(('&' == qm) = true) from by decide),
      if_neg (show ¬(('&' == apos) = true) from by decide)]
    omega
  by_cases h2 : d = '<'
  · subst h2
    rw [if_pos (show ((decide ('<' = '&') || decide ('<' = '<') || decide ('<' = '>')
      || decide ('<' = qm) || decide ('<' = apos)) = true) from by decide),
      if_neg (show ¬(('<' == '&') = true) from by decide),
      if_pos (show (('<' == '<') = true) from by decide),
      if_neg (show ¬(('<' == '>') = true) from by decide),
      if_neg (show ¬(('<' == qm) = true) from by decide),
      if_neg (show ¬(('<' == apos) = true) from by decide)]
    omega
  by_cases h3 : d = '>'
  · subst h3
    rw [if_pos (show ((decide ('>' = '&') || decide ('>' = '<') || decide ('>' = '>')
      || decide ('>' = qm) || decide ('>' = apos)) = true) from by decide),
      if_neg (show ¬(('>' == '&') = true) from by decide),
      if_neg (show ¬(('>' == '<') = true) from by decide),
      if_pos (show (('>' == '>') = true) from by decide),
      if_neg (show ¬(('>' == qm) = true) from by decide),
      if_neg (show ¬(('>' == apos) = true) from by decide)]
    omega
  by_cases h4 : d = qm
  · subst h4
    rw [if_pos (show ((decide (qm = '&') || decide (qm = '<') || decide (qm = '>')
      || decide (qm = qm) || decide (qm = apos)) = true) from by decide),
      if_neg (show ¬((qm == '&') = true) from by decide),
      if_neg (show ¬((qm == '<') = true) from by decide),
      if_neg (show ¬((qm == '>') = true) from by decide),
      if_pos (show ((qm == qm) = true) from by decide),
      if_neg (show ¬((qm == apos) = true) from by decide)]
    omega
  by_cases h5 : d = apos
  · subst h5
    rw [if_pos (show ((decide (apos = '&') || decide (apos = '<') || decide (apos = '>')
      || decide (apos = qm) || decide (apos = apos)) = true) from by decide),
      if_neg (show ¬((apos == '&') = true) from by decide),
      if_neg (show ¬((apos == '<') = true) from by decide),
      if_neg (show ¬((apos == '>') = true) from by decide),
      if_neg (show ¬((apos == qm) = true) from by decide),
      if_pos (show ((apos == apos) = true) from by decide)]
    omega
  rw [if_neg (show ¬((decide (d = '&') || decide (d = '<') || decide (d = '>')
      || decide (d = qm) || decide (d = apos)) = true) from by simp [h1, h2, h3, h4, h5]),
    if_neg (show ¬((d == '&') = true) from by simp [h1]),
    if_neg (show ¬((d == '<') = true) from by simp [h2]),
    if_neg (show ¬((d == '>') = true) from by simp [h3]),
    if_neg (show ¬((d == qm) = true) from by simp [h4]),
    if_neg (show ¬((d == apos) = true) from by simp [h5])]
  omega

theorem count_htmlEscape_amp (t : List Char) : (htmlEscape t).count '&' = specials t := by
  induction t with
  | nil => rfl
  | cons d t ih =>
    show (escapeChar d ++ htmlEscape t).count '&' = _
    rw [List.count_append, ih, count_escapeChar_amp, specials_cons]
    omega

theorem count_dropWhile_eq {pr : Char → Bool} {c : Char} {l : List Char}
    (hc : pr c = false) : (l.dropWhile pr).count c = l.count c := by
  induction l with
  | nil => rfl
  | cons d t ih =>
    rw [List.dropWhile_cons]
    split
    · rename_i hd
      rw [ih, List.count_cons]
      have : d ≠ c := fun h => by rw [h, hc] at hd; exact Bool.false_ne_true hd
      simp [this]
    · rfl

theorem stripTailP_nil_all {pr : Char → Bool} {t : List Char}
    (h : stripTailP pr t = []) : ∀ x ∈ t, pr x = true := by
  induction t with
  | nil => simp
  | cons d t ih =>
    rw [stripTailP_cons] at h
    by_cases hcond : (pr d && (stripTailP pr t).isEmpty) = true
    · simp only [Bool.and_eq_true, List.isEmpty_iff] at hcond
      intro x hx
      rcases List.mem_cons.1 hx with hx | hx
      · rw [hx]; exact hcond.1
      · exact ih hcond.2 x hx
    · rw [if_neg hcond] at h
      simp at h

theorem count_stripTailP_eq {pr : Char → Bool} {c : Char} {l : List Char}
    (hc : pr c = false) : (stripTailP pr l).count c = l.count c := by
  induction l with
  | nil => rfl
  | cons d t ih =>
    rw [stripTailP_cons]
    by_cases hcond : (pr d && (stripTailP pr t).isEmpty) = true
    · rw [if_pos hcond]
      simp only [Bool.and_eq_true, List.isEmpty_iff] at hcond
      have hall := stripTailP_nil_all hcond.2
      have hd : d ≠ c := fun h => by
        rw [h, hc] at hcond
        exact Bool.false_ne_true hcond.1
      have ht : t.count c = 0 := count_eq_zero_of_ne fun x hx h => by
        have := h ▸ hall x hx
        rw [hc] at this
        exact Bool.false_ne_true this
      rw [List.count_cons, ht]
      simp [hd]
    · rw [if_neg hcond, List.count_cons, List.count_cons, ih]

theorem count_pyStrip_eq {c : Char} {l : List Char} (hc : pyIsSpace c = false) :
    (pyStrip l).count c = l.count c := by
  unfold pyStrip
  rw [count_stripTailP_eq hc, count_dropWhile_eq hc]

theorem specials_append (a b : List Char) :
    specials (a ++ b) = specials a + specials b := by
  unfold specials
  simp only [List.count_append]
  omega

theorem specials_pyStrip (p : List Char) : specials (pyStrip p) = specials p := by
  unfold specials
  rw [count_pyStrip_eq (by decide), count_pyStrip_eq (by decide),
    count_pyStrip_eq (by decide), count_pyStrip_eq (by decide),
    count_pyStrip_eq (by decide)]

theorem all_space_of_pyStrip_nil {q : List Char} (h : pyStrip q = []) :
    ∀ x ∈ q, pyIsSpace x = true := by
  unfold pyStrip at h
  intro x hx
  have hsplit := List.takeWhile_append_dropWhile (p := pyIsSpace) (l := q)
  rw [← hsplit] at hx
  rcases List.mem_append.1 hx with hx | hx
  · exact List.mem_takeWhile_imp hx
  · exact stripTailP_nil_all h x hx

theorem count_nil_of_all_space {c : Char} {q : List Char} (hc : pyIsSpace c = false)
    (h : ∀ x ∈ q, pyIsSpace x = true) : q.count c = 0 :=
  count_eq_zero_of_ne fun x hx he => by
    have := he ▸ h x hx
    rw [hc] at this
    exact Bool.false_ne_true this

theorem specials_nil_of_strip_nil {q : List Char} (h : pyStrip q = []) :
    specials q = 0 := by
  have hall := all_space_of_pyStrip_nil h
  unfold specials
  rw [count_nil_of_all_space (by decide) hall, count_nil_of_all_space (by decide) hall,
    count_nil_of_all_space (by decide) hall, count_nil_of_all_space (by decide) hall,
    count_nil_of_all_space (by decide) hall]

theorem count_joinSep {c : Char} {sep : List Char} (hsep : sep.count c = 0)
    (parts : List (List Char)) :
    (joinSep sep parts).count c = (parts.map (List.count c)).sum := by
  induction parts with
  | nil => rfl
  | cons p ps ih =>
    cases ps with
    | nil => show p.count c = _; simp
    | cons q qs =>
      show (p ++ (sep ++ joinSep sep (q :: qs))).count c = _
      rw [List.count_append, List.count_append, hsep, ih]
      simp

theorem sum_count_filterStrip {c : Char} (hc : pyIsSpace c = false)
    (ps : List (List Char)) :
    (((ps.map pyStrip).filter (fun q => !q.isEmpty)).map (List.count c)).sum
      = (ps.map (List.count c)).sum := by
  induction ps with
  | nil => rfl
  | cons p t ih =>
    simp only [List.map_cons, List.filter_cons]
    by_cases hp : (pyStrip p).isEmpty = true
    · have h0 : p.count c = 0 :=
        count_nil_of_all_space hc (all_space_of_pyStrip_nil (List.isEmpty_iff.1 hp))
      simp [hp, ih, h0]
    · simp only [hp, Bool.not_false, if_pos rfl]
      simp only [Bool.not_eq_true] at hp
      simp [List.map_cons, ih, count_pyStrip_eq hc]

theorem count_descJoin {c : Char} (hc : pyIsSpace c = false) (ps : List (List Char)) :
    (descJoinChars ps).count c = sumCount c ps := by
  unfold descJoinChars sumCount
  have hcs : ¬(' ' = c) := fun h => by
    rw [← h] at hc
    exact absurd hc (by decide)
  rw [count_joinSep (show ([' '] : List Char).count c = 0 from by
      rw [show ([' '] : List Char) = ' ' :: [] from rfl, List.count_cons]
      simp [hcs]),
    sum_count_filterStrip hc]

theorem sumSpec_eq (ps : List (List Char)) :
    sumSpec ps = sumCount '&' ps + sumCount '<' ps + sumCount '>' ps
      + sumCount qm ps + sumCount apos ps := by
  unfold sumSpec sumCount
  induction ps with
  | nil => rfl
  | cons p t ih =>
    simp only [List.map_cons, List.sum_cons]
    unfold specials at ih ⊢
    omega

theorem specials_descJoin (ps : List (List Char)) :
    specials (descJoinChars ps) = sumSpec ps := by
  unfold specials
  rw [count_descJoin (by decide), count_descJoin (by decide), count_descJoin (by decide),
    count_descJoin (by decide), count_descJoin (by decide), sumSpec_eq]

/-! ### Raw character counts over the rendered page -/

theorem sum_map_congr {α : Type} {f g : α → Nat} {l : List α}
    (h : ∀ x ∈ l, f x = g x) : (l.map f).sum = (l.map g).sum := by
  induction l with
  | nil => rfl
  | cons x t ih =>
    simp only [List.map_cons, List.sum_cons, h x (by simp)]
    rw [ih fun y hy => h y (by simp [hy])]

theorem sum_map_zero {α : Type} {f : α → Nat} {l : List α}
    (h : ∀ x ∈ l, f x = 0) : (l.map f).sum = 0 := by
  rw [sum_map_congr h]
  induction l with
  | nil => rfl
  | cons x t ih => simpa using ih

theorem sum_map_add {α : Type} (f g : α → Nat) (l : List α) :
    (l.map fun x => f x + g x).sum = (l.map f).sum + (l.map g).sum := by
  induction l with
  | nil => rfl
  | cons x t ih =>
    simp only [List.map_cons, List.sum_cons, ih]
    omega

theorem sum_map_const {α : Type} (k : Nat) (l : List α) :
    (l.map fun _ => k).sum = l.length * k := by
  induction l with
  | nil => simp
  | cons x t ih =>
    simp only [List.map_cons, List.sum_cons, List.length_cons, ih]
    ring

theorem count_slug_zero {c : Char} {slug : List Char}
    (hslug : ∀ x ∈ slug, isSlugChar x = true)
    (hc : c = '<' ∨ c = '>' ∨ c = '&' ∨ c = qm ∨ c = apos ∨ c = '\n') :
    slug.count c = 0 := by
  refine count_eq_zero_of_ne fun x hx => ?_
  have h6 := slugChar_ne (hslug x hx)
  rcases hc with rfl | rfl | rfl | rfl | rfl | rfl
  · exact h6.1
  · exact h6.2.1
  · exact h6.2.2.1
  · exact h6.2.2.2.1
  · exact h6.2.2.2.2.1
  · exact h6.2.2.2.2.2

theorem count_digits_zero {c : Char}
    (hc : c = '<' ∨ c = '>' ∨ c = '&' ∨ c = qm ∨ c = apos ∨ c = '\n') (i : Nat) :
    (natDigits i).count c = 0 := by
  refine count_eq_zero_of_ne fun x hx => ?_
  have h6 := digitChar_ne (natDigits_digits i x hx)
  rcases hc with rfl | rfl | rfl | rfl | rfl | rfl
  · exact h6.1
  · exact h6.2.1
  · exact h6.2.2.1
  · exact h6.2.2.2.1
  · exact h6.2.2.2.2.1
  · exact h6.2.2.2.2.2

theorem count_render (c : Char) (slug title : List Char) (descs : List (List Char))
    (mode : List Char) (stepPs : Option (List (List Char)))
    (groups : Option (List (List (List Char)))) :
    (renderChars slug title descs mode stepPs groups).count c
      = tplFixed.count c + (htmlEscape (descJoinChars descs)).count c
        + 4 * slug.count c + 5 * (htmlEscape title).count c
        + (joinSep "\n".data (descs.map descLine)).count c
        + (stepsClassChars mode).count c
        + (stepsHtmlChars slug mode stepPs groups).count c := by
  unfold renderChars tplFixed
  simp only [List.count_append]
  omega

theorem count_descLine (c : Char) (p : List Char) :
    (descLine p).count c = descBase.count c + (htmlEscape p).count c := by
  unfold descLine descBase
  simp only [List.count_append]
  omega

theorem count_paraLine (c : Char) (p : List Char) :
    (paraLine p).count c = paraBase.count c + (htmlEscape p).count c := by
  unfold paraLine paraBase
  simp only [List.count_append]
  omega

theorem count_paraBlock {c : Char} (hsep : ("\n".data : List Char).count c = 0)
    (ps : List (List Char)) :
    (joinSep "\n".data (ps.map paraLine)).count c
      = ps.length * paraBase.count c + (ps.map fun p => (htmlEscape p).count c).sum := by
  rw [count_joinSep hsep, List.map_map]
  have : (List.count c ∘ paraLine) = fun p => paraBase.count c + (htmlEscape p).count c := by
    funext p
    exact count_paraLine c p
  rw [this, sum_map_add (fun _ => paraBase.count c) (fun p => (htmlEscape p).count c),
    sum_map_const]

theorem count_descBlock {c : Char} (hsep : ("\n".data : List Char).count c = 0)
    (descs : List (List Char)) :
    (joinSep "\n".data (descs.map descLine)).count c
      = descs.length * descBase.count c
        + (descs.map fun p => (htmlEscape p).count c).sum := by
  rw [count_joinSep hsep, List.map_map]
  have : (List.count c ∘ descLine) = fun p => descBase.count c + (htmlEscape p).count c := by
    funext p
    exact count_descLine c p
  rw [this, sum_map_add (fun _ => descBase.count c) (fun p => (htmlEscape p).count c),
    sum_map_const]

theorem count_rowFor {c : Char} (hsep : ("\n".data : List Char).count c = 0)
    {slug : List Char} (hs : slug.count c = 0)
    (hd : ∀ i, (natDigits i).count c = 0) (k : Nat) (g : List (List Char)) :
    (rowFor slug k g).count c
      = rowBase.count c + g.length * paraBase.count c
        + (g.map fun p => (htmlEscape p).count c).sum := by
  unfold rowFor rowBase
  simp only [List.count_append]
  rw [hs, hd k, count_paraBlock hsep]
  omega

theorem sum_count_rows {c : Char} (hsep : ("\n".data : List Char).count c = 0)
    {slug : List Char} (hs : slug.count c = 0)
    (hd : ∀ i2, (natDigits i2).count c = 0) :
    ∀ (i : Nat) (gs : List (List (List Char))),
      ((rowsFrom slug i gs).map (List.count c)).sum
        = gs.length * rowBase.count c + totalParas gs * paraBase.count c
          + (gs.join.map fun p => (htmlEscape p).count c).sum := by
  intro i gs
  induction gs generalizing i with
  | nil => simp [rowsFrom, totalParas]
  | cons g gs ih =>
    unfold rowsFrom
    simp only [List.map_cons, List.sum_cons, List.join, List.flatten_cons,
      List.length_cons, List.map_append, List.sum_append]
    rw [count_rowFor hsep hs hd i g, ih (i + 1)]
    unfold totalParas
    simp only [List.map_cons, List.sum_cons]
    ring

theorem count_rows {c : Char} (hsep : ("\n".data : List Char).count c = 0)
    (hsep2 : ("\n\n".data : List Char).count c = 0)
    {slug : List Char} (hs : slug.count c = 0)
    (hd : ∀ i2, (natDigits i2).count c = 0) (gs : List (List (List Char))) :
    (joinSep "\n\n".data (rowsFrom slug 1 gs)).count c
      = gs.length * rowBase.count c + totalParas gs * paraBase.count c
        + (gs.join.map fun p => (htmlEscape p).count c).sum := by
  rw [count_joinSep hsep2, sum_count_rows hsep hs hd 1 gs]

/-! ### Entity occurrences: each escaped character appears as its entity -/

theorem special_cases {c : Char} (h : isSpecialChar c = true) :
    c = '&' ∨ c = '<' ∨ c = '>' ∨ c = qm ∨ c = apos := by
  simp only [isSpecialChar, Bool.or_eq_true, decide_eq_true_eq] at h
  tauto

theorem special_not_space {c : Char} (h : isSpecialChar c = true) :
    pyIsSpace c = false := by
  rcases special_cases h with rfl | rfl | rfl | rfl | rfl <;> decide

theorem special_not_nl {c : Char} (h : isSpecialChar c = true) : c ≠ '\n' := by
  rcases special_cases h with rfl | rfl | rfl | rfl | rfl <;> decide

theorem escapeChar_head {c : Char} (h : isSpecialChar c = true) :
    (escapeChar c).head? = some '&' := by
  rcases special_cases h with rfl | rfl | rfl | rfl | rfl <;> decide

theorem countFrom_escapeChar_self {c : Char} (h : isSpecialChar c = true)
    (b : List Char) : countFrom (escapeChar c) (escapeChar c) b = 1 := by
  rcases special_cases h with rfl | rfl | rfl | rfl | rfl
  · exact countFrom_self (escapeChar '&') '&' "amp;".data (by decide) (by decide) b
  · exact countFrom_self (escapeChar '<') '&' "lt;".data (by decide) (by decide) b
  · exact countFrom_self (escapeChar '>') '&' "gt;".data (by decide) (by decide) b
  · exact countFrom_self (escapeChar qm) '&' "quot;".data (by decide) (by decide) b
  · exact countFrom_self (escapeChar apos) '&' "#x27;".data (by decide) (by decide) b

theorem countFrom_escapeChar_other {c0 d : Char} (h0 : isSpecialChar c0 = true)
    (hd : isSpecialChar d = true) (hne : d ≠ c0) (b : List Char) :
    countFrom (escapeChar c0) (escapeChar d) b = 0 := by
  rcases special_cases h0 with rfl | rfl | rfl | rfl | rfl <;>
    rcases special_cases hd with rfl | rfl | rfl | rfl | rfl <;>
      first
        | exact absurd rfl hne
        | exact countFrom_zero_of_noStart b (isPrefixOf_rfl _) (by decide)

theorem countFrom_htmlEscape {c0 : Char} (h0 : isSpecialChar c0 = true)
    (t : List Char) : ∀ b : List Char,
      countFrom (escapeChar c0) (htmlEscape t) b = t.count c0 := by
  induction t with
  | nil => intro b; simp [htmlEscape, countFrom]
  | cons d t ih =>
    intro b
    show countFrom _ (escapeChar d ++ htmlEscape t) b = _
    rw [countFrom_append, ih b]
    by_cases hd : isSpecialChar d = true
    · by_cases hdc : d = c0
      · subst hdc
        rw [countFrom_escapeChar_self h0]
        simp [List.count_cons]
        omega
      · rw [countFrom_escapeChar_other h0 hd hdc]
        simp [List.count_cons, hdc, Ne.symm hdc]
    · have h1 : d ≠ '&' := fun e => hd (by rw [e]; decide)
      have h2 : d ≠ '<' := fun e => hd (by rw [e]; decide)
      have h3 : d ≠ '>' := fun e => hd (by rw [e]; decide)
      have h4 : d ≠ qm := fun e => hd (by rw [e]; decide)
      have h5 : d ≠ apos := fun e => hd (by rw [e]; decide)
      have hde : escapeChar d = [d] := by
        unfold escapeChar
        rw [if_neg h1, if_neg h2, if_neg h3, if_neg h4, if_neg h5]
      have hdc : d ≠ c0 := fun e => hd (by rw [e]; exact h0)
      rw [hde, countFrom_zero_of_headFree _ (escapeChar_head h0)
        (fun x hx => by simp only [List.mem_singleton] at hx; rw [hx]; exact h1)]
      simp [List.count_cons, hdc, Ne.symm hdc]

theorem countFrom_descLine_entity {c0 : Char} (h0 : isSpecialChar c0 = true)
    (p b : List Char) :
    countFrom (escapeChar c0) (descLine p) b = p.count c0 := by
  unfold descLine
  rw [countFrom_append, countFrom_append, countFrom_htmlEscape h0,
    countFrom_zero_of_headFree _ (escapeChar_head h0) (by decide),
    countFrom_zero_of_headFree _ (escapeChar_head h0) (by decide)]
  omega

theorem countFrom_paraLine_entity {c0 : Char} (h0 : isSpecialChar c0 = true)
    (p b : List Char) :
    countFrom (escapeChar c0) (paraLine p) b = p.count c0 := by
  unfold paraLine
  rw [countFrom_append, countFrom_append, countFrom_htmlEscape h0,
    countFrom_zero_of_headFree _ (escapeChar_head h0) (by decide),
    countFrom_zero_of_headFree _ (escapeChar_head h0) (by decide)]
  omega

theorem countFrom_joinSep_sum {pat sep : List Char} {α : Type} (f : α → List Char)
    (v : α → Nat) (hsep : ∀ b2, countFrom pat sep b2 = 0) :
    ∀ (parts : List α), (∀ p ∈ parts, ∀ b2, countFrom pat (f p) b2 = v p) →
      ∀ b : List Char,
        countFrom pat (joinSep sep (parts.map f)) b = (parts.map v).sum := by
  intro parts
  induction parts with
  | nil => intro _ b; simp [joinSep, countFrom]
  | cons p ps ih =>
    intro hp b
    cases ps with
    | nil => simpa using hp p (by simp) b
    | cons q qs =>
      show countFrom pat (f p ++ (sep ++ joinSep sep ((q :: qs).map f))) b = _
      rw [countFrom_append, countFrom_append, hp p (by simp), hsep,
        ih (fun x hx b2 => hp x (by simp [hx]) b2) b]
      simp

theorem countFrom_rowFor_entity {c0 : Char} (h0 : isSpecialChar c0 = true)
    {slug : List Char} (hslug : ∀ c ∈ slug, isSlugChar c = true)
    (k : Nat) (g : List (List Char)) (b : List Char) :
    countFrom (escapeChar c0) (rowFor slug k g) b = sumCount c0 g := by
  have hamp : ∀ c ∈ slug, c ≠ '&' := fun c hc => (slugChar_ne (hslug c hc)).2.2.1
  have hdig : ∀ i2 : Nat, ∀ c ∈ natDigits i2, c ≠ '&' :=
    fun i2 c hc => (digitChar_ne (natDigits_digits i2 c hc)).2.2.1
  unfold rowFor
  simp only [List.append_assoc, countFrom_append]
  rw [countFrom_zero_of_headFree _ (escapeChar_head h0) (by decide),
    countFrom_zero_of_headFree _ (escapeChar_head h0) (by decide),
    countFrom_zero_of_headFree _ (escapeChar_head h0) hamp,
    countFrom_zero_of_headFree _ (escapeChar_head h0) (by decide),
    countFrom_zero_of_headFree _ (escapeChar_head h0) (hdig k),
    countFrom_zero_of_headFree _ (escapeChar_head h0) (by decide),
    countFrom_zero_of_headFree _ (escapeChar_head h0) (hdig k),
    countFrom_zero_of_headFree _ (escapeChar_head h0) (by decide),
    countFrom_joinSep_sum paraLine (List.count c0)
      (fun b2 => countFrom_zero_of_headFree b2 (escapeChar_head h0) (by decide)) g
      (fun p _ b2 => countFrom_paraLine_entity h0 p b2),
    countFrom_zero_of_headFree _ (escapeChar_head h0) (by decide)]
  unfold sumCount
  omega

theorem countFrom_rows_entity {c0 : Char} (h0 : isSpecialChar c0 = true)
    {slug : List Char} (hslug : ∀ c ∈ slug, isSlugChar c = true) :
    ∀ (i : Nat) (gs : List (List (List Char))) (b : List Char),
      countFrom (escapeChar c0) (joinSep "\n\n".data (rowsFrom slug i gs)) b
        = sumCount c0 gs.join := by
  intro i gs
  induction gs generalizing i with
  | nil => intro b; simp [rowsFrom, joinSep, countFrom, sumCount]
  | cons g gs ih =>
    intro b
    unfold rowsFrom
    cases gs with
    | nil =>
      show countFrom _ (rowFor slug i g) b = _
      rw [countFrom_rowFor_entity h0 hslug i g b]
      simp [sumCount]
    | cons g2 gs2 =>
      show countFrom _ (rowFor slug i g ++ ("\n\n".data ++
        joinSep "\n\n".data (rowsFrom slug (i + 1) (g2 :: gs2)))) b = _
      rw [countFrom_append, countFrom_append, countFrom_rowFor_entity h0 hslug i g,
        countFrom_zero_of_headFree _ (escapeChar_head h0) (by decide),
        ih (i + 1) b]
      simp only [List.join, List.flatten_cons, sumCount, List.map_append, List.sum_append]
      omega

theorem stepsClass_amp_free (mode : List Char) :
    ∀ c ∈ stepsClassChars mode, c ≠ '&' := by
  intro c hc
  unfold stepsClassChars at hc
  rcases List.mem_append.1 hc with hc | hc
  · exact (by decide : ∀ x ∈ "project-steps".data, x ≠ '&') c hc
  · by_cases hm : mode = "centered".data
    · rw [if_pos hm] at hc
      exact (by decide : ∀ x ∈ " centered-text".data, x ≠ '&') c hc
    · rw [if_neg hm] at hc
      simp at hc

theorem render_entity_count {c0 : Char} (h0 : isSpecialChar c0 = true)
    {slug : List Char} (hslug : ∀ c ∈ slug, isSlugChar c = true)
    (title : List Char) (descs : List (List Char)) (mode : List Char)
    (stepPs : Option (List (List Char))) (groups : Option (List (List (List Char)))) :
    countOcc (escapeChar c0) (renderChars slug title descs mode stepPs groups)
      = 5 * title.count c0 + 2 * sumCount c0 descs
        + countFrom (escapeChar c0) (stepsHtmlChars slug mode stepPs groups) tplA14 := by
  have hamp : ∀ c ∈ slug, c ≠ '&' := fun c hc => (slugChar_ne (hslug c hc)).2.2.1
  unfold renderChars
  simp only [countOcc_append]
  rw [countFrom_zero_of_headFree _ (escapeChar_head h0) (by decide),
    countFrom_zero_of_headFree _ (escapeChar_head h0) (by decide),
    countFrom_htmlEscape h0, count_descJoin (special_not_space h0) descs,
    countFrom_zero_of_headFree _ (escapeChar_head h0) (by decide),
    countFrom_zero_of_headFree _ (escapeChar_head h0) hamp,
    countFrom_zero_of_headFree _ (escapeChar_head h0) (by decide),
    countFrom_htmlEscape h0,
    countFrom_zero_of_headFree _ (escapeChar_head h0) (by decide),
    countFrom_htmlEscape h0,
    countFrom_zero_of_headFree _ (escapeChar_head h0) (by decide),
    countFrom_joinSep_sum descLine (List.count c0)
      (fun b2 => countFrom_zero_of_headFree b2 (escapeChar_head h0) (by decide)) descs
      (fun p _ b2 => countFrom_descLine_entity h0 p b2),
    countFrom_zero_of_headFree _ (escapeChar_head h0) (by decide),
    countFrom_zero_of_headFree _ (escapeChar_head h0) (by decide),
    countFrom_zero_of_headFree _ (escapeChar_head h0) hamp,
    countFrom_zero_of_headFree _ (escapeChar_head h0) (by decide),
    countFrom_htmlEscape h0,
    countFrom_zero_of_headFree _ (escapeChar_head h0) (by decide),
    countFrom_zero_of_headFree _ (escapeChar_head h0) (by decide),
    countFrom_zero_of_headFree _ (escapeChar_head h0) hamp,
    countFrom_zero_of_headFree _ (escapeChar_head h0) (by decide),
    countFrom_htmlEscape h0,
    countFrom_zero_of_headFree _ (escapeChar_head h0) (by decide),
    countFrom_zero_of_headFree _ (escapeChar_head h0) (by decide),
    countFrom_zero_of_headFree _ (escapeChar_head h0) hamp,
    countFrom_zero_of_headFree _ (escapeChar_head h0) (by decide),
    countFrom_htmlEscape h0,
    countFrom_zero_of_headFree _ (escapeChar_head h0) (by decide),
    countFrom_zero_of_headFree _ (escapeChar_head h0) (stepsClass_amp_free mode),
    countFrom_zero_of_headFree _ (escapeChar_head h0) (by decide),
    countOcc_zero_of_headFree (escapeChar_head h0) (by decide)]
  unfold sumCount
  omega

theorem count_render_images {c : Char} (hesc : ∀ t, (htmlEscape t).count c = 0)
    (hnl : ("\n".data : List Char).count c = 0)
    (hnl2 : ("\n\n".data : List Char).count c = 0)
    {slug : List Char} (hs : slug.count c = 0)
    (hd : ∀ i, (natDigits i).count c = 0)
    (title : List Char) (descs : List (List Char)) (gs : List (List (List Char))) :
    (renderChars slug title descs "images".data none (some gs)).count c
      = tplFixed.count c + descs.length * descBase.count c
        + gs.length * rowBase.count c + totalParas gs * paraBase.count c
        + ("project-steps".data : List Char).count c := by
  rw [count_render, hesc, hesc, hs, count_descBlock hnl, stepsClass_images,
    stepsHtml_images, count_rows hnl hnl2 hs hd,
    sum_map_zero (fun p _ => hesc p), sum_map_zero (fun p _ => hesc p)]
  omega

theorem count_render_centered {c : Char} (hesc : ∀ t, (htmlEscape t).count c = 0)
    (hnl : ("\n".data : List Char).count c = 0)
    {slug : List Char} (hs : slug.count c = 0)
    (title : List Char) (descs ps : List (List Char)) :
    (renderChars slug title descs "centered".data (some ps) none).count c
      = tplFixed.count c + descs.length * descBase.count c
        + ps.length * paraBase.count c
        + ("project-steps centered-text".data : List Char).count c := by
  rw [count_render, hesc, hesc, hs, count_descBlock hnl, stepsClass_centered,
    stepsHtml_centered, count_paraBlock hnl,
    sum_map_zero (fun p _ => hesc p), sum_map_zero (fun p _ => hesc p)]
  omega

theorem count_render_amp_images {slug : List Char} (hs : slug.count '&' = 0)
    (hd : ∀ i, (natDigits i).count '&' = 0)
    (title : List Char) (descs : List (List Char)) (gs : List (List (List Char))) :
    (renderChars slug title descs "images".data none (some gs)).count '&'
      = 5 * specials title + 2 * sumSpec descs + sumSpec gs.join := by
  rw [count_render, count_htmlEscape_amp, specials_descJoin, hs,
    count_htmlEscape_amp, count_descBlock (by decide), stepsClass_images,
    stepsHtml_images, count_rows (by decide) (by decide) hs hd,
    sum_map_congr (fun p _ => count_htmlEscape_amp p),
    sum_map_congr (fun p _ => count_htmlEscape_amp p)]
  have h1 : tplFixed.count '&' = 0 := by decide
  have h2 : descBase.count '&' = 0 := by decide
  have h3 : rowBase.count '&' = 0 := by decide
  have h4 : paraBase.count '&' = 0 := by decide
  have h5 : ("project-steps".data : List Char).count '&' = 0 := by decide
  rw [h1, h2, h3, h4, h5]
  unfold sumSpec
  omega

theorem count_render_amp_centered {slug : List Char} (hs : slug.count '&' = 0)
    (title : List Char) (descs ps : List (List Char)) :
    (renderChars slug title descs "centered".data (some ps) none).count '&'
      = 5 * specials title + 2 * sumSpec descs + sumSpec ps := by
  rw [count_render, count_htmlEscape_amp, specials_descJoin, hs,
    count_htmlEscape_amp, count_descBlock (by decide), stepsClass_centered,
    stepsHtml_centered, count_paraBlock (by decide),
    sum_map_congr (fun p _ => count_htmlEscape_amp p),
    sum_map_congr (fun p _ => count_htmlEscape_amp p)]
  have h1 : tplFixed.count '&' = 0 := by decide
  have h2 : descBase.count '&' = 0 := by decide
  have h4 : paraBase.count '&' = 0 := by decide
  have h5 : ("project-steps centered-text".data : List Char).count '&' = 0 := by decide
  rw [h1, h2, h4, h5]
  unfold sumSpec
  omega

/-- **C1.** `render_html` escapes every user-supplied text (title, description
paragraphs, step paragraphs, and the joined meta description) for the five
HTML entities. Formally, in both layouts: the number of raw `<`, `>`, `"` and
`'` characters in the rendered page is a function of the input shape alone
(paragraph and step counts), so no occurrence of these characters in any
user text survives unescaped; the number of raw `&` characters equals the
total number of escapable characters across all escaped insertions, so every
raw `&` is the head of an entity introduced by escaping and no user-text `&`
survives on its own; and each escapable character occurrence of each user
text appears as its HTML entity: five entity occurrences per title character
(title element, heading, three image alts), two per description-paragraph
character (description block and meta description), and one per
step-paragraph character. -/
theorem render_escapes_user_text (slug title : List Char) (descs : List (List Char))
    (hslug : ∀ c ∈ slug, isSlugChar c = true) :
    (∀ gs : List (List (List Char)),
      ((renderChars slug title descs "images".data none (some gs)).count '<'
          = 53 + 2 * descs.length + (5 * gs.length + 2 * totalParas gs)
        ∧ (renderChars slug title descs "images".data none (some gs)).count '>'
          = 53 + 2 * descs.length + (5 * gs.length + 2 * totalParas gs)
        ∧ (renderChars slug title descs "images".data none (some gs)).count qm
          = 66 + 8 * gs.length
        ∧ (renderChars slug title descs "images".data none (some gs)).count apos = 4)
      ∧ (renderChars slug title descs "images".data none (some gs)).count '&'
          = 5 * specials title + 2 * sumSpec descs + sumSpec gs.join
      ∧ (∀ c0 : Char, isSpecialChar c0 = true →
          countOcc (escapeChar c0)
              (renderChars slug title descs "images".data none (some gs))
            = 5 * title.count c0 + 2 * sumCount c0 descs + sumCount c0 gs.join))
    ∧ (∀ ps : List (List Char),
      ((renderChars slug title descs "centered".data (some ps) none).count '<'
          = 53 + 2 * descs.length + 2 * ps.length
        ∧ (renderChars slug title descs "centered".data (some ps) none).count '>'
          = 53 + 2 * descs.length + 2 * ps.length
        ∧ (renderChars slug title descs "centered".data (some ps) none).count qm = 66
        ∧ (renderChars slug title descs "centered".data (some ps) none).count apos = 4)
      ∧ (renderChars slug title descs "centered".data (some ps) none).count '&'
          = 5 * specials title + 2 * sumSpec descs + sumSpec ps
      ∧ (∀ c0 : Char, isSpecialChar c0 = true →
          countOcc (escapeChar c0)
              (renderChars slug title descs "centered".data (some ps) none)
            = 5 * title.count c0 + 2 * sumCount c0 descs + sumCount c0 ps)) := by
  constructor
  · intro gs
    refine ⟨⟨?_, ?_, ?_, ?_⟩, ?_, ?_⟩
    · rw [count_render_images count_htmlEscape_lt (by decide) (by decide)
        (count_slug_zero hslug (Or.inl rfl)) (count_digits_zero (Or.inl rfl))
        title descs gs,
        (by decide : tplFixed.count '<' = 53), (by decide : descBase.count '<' = 2),
        (by decide : rowBase.count '<' = 5), (by decide : paraBase.count '<' = 2),
        (by decide : ("project-steps".data : List Char).count '<' = 0)]
      omega
    · rw [count_render_images count_htmlEscape_gt (by decide) (by decide)
        (count_slug_zero hslug (Or.inr (Or.inl rfl)))
        (count_digits_zero (Or.inr (Or.inl rfl))) title descs gs,
        (by decide : tplFixed.count '>' = 53), (by decide : descBase.count '>' = 2),
        (by decide : rowBase.count '>' = 5), (by decide : paraBase.count '>' = 2),
        (by decide : ("project-steps".data : List Char).count '>' = 0)]
      omega
    · rw [count_render_images count_htmlEscape_qm (by decide) (by decide)
        (count_slug_zero hslug (Or.inr (Or.inr (Or.inr (Or.inl rfl)))))
        (count_digits_zero (Or.inr (Or.inr (Or.inr (Or.inl rfl))))) title descs gs,
        (by decide : tplFixed.count qm = 66), (by decide : descBase.count qm = 0),
        (by decide : rowBase.count qm = 8), (by decide : paraBase.count qm = 0),
        (by decide : ("project-steps".data : List Char).count qm = 0)]
      omega
    · rw [count_render_images count_htmlEscape_apos (by decide) (by decide)
        (count_slug_zero hslug (Or.inr (Or.inr (Or.inr (Or.inr (Or.inl rfl))))))
        (count_digits_zero (Or.inr (Or.inr (Or.inr (Or.inr (Or.inl rfl))))))
        title descs gs,
        (by decide : tplFixed.count apos = 4), (by decide : descBase.count apos = 0),
        (by decide : rowBase.count apos = 0), (by decide : paraBase.count apos = 0),
        (by decide : ("project-steps".data : List Char).count apos = 0)]
      omega
    · exact count_render_amp_images
        (count_slug_zero hslug (Or.inr (Or.inr (Or.inl rfl))))
        (count_digits_zero (Or.inr (Or.inr (Or.inl rfl)))) title descs gs
    · intro c0 h0
      rw [render_entity_count h0 hslug title descs _ none (some gs),
        stepsHtml_images, countFrom_rows_entity h0 hslug 1 gs tplA14]
  · intro ps
    refine ⟨⟨?_, ?_, ?_, ?_⟩, ?_, ?_⟩
    · rw [count_render_centered count_htmlEscape_lt (by decide)
        (count_slug_zero hslug (Or.inl rfl)) title descs ps,
        (by decide : tplFixed.count '<' = 53), (by decide : descBase.count '<' = 2),
        (by decide : paraBase.count '<' = 2),
        (by decide : ("project-steps centered-text".data : List Char).count '<' = 0)]
      omega
    · rw [count_render_centered count_htmlEscape_gt (by decide)
        (count_slug_zero hslug (Or.inr (Or.inl rfl))) title descs ps,
        (by decide : tplFixed.count '>' = 53), (by decide : descBase.count '>' = 2),
        (by decide : paraBase.count '>' = 2),
        (by decide : ("project-steps centered-text".data : List Char).count '>' = 0)]
      omega
    · rw [count_render_centered count_htmlEscape_qm (by decide)
        (count_slug_zero hslug (Or.inr (Or.inr (Or.inr (Or.inl rfl)))))
        title descs ps,
        (by decide : tplFixed.count qm = 66), (by decide : descBase.count qm = 0),
        (by decide : paraBase.count qm = 0),
        (by decide : ("project-steps centered-text".data : List Char).count qm = 0)]
      omega
    · rw [count_render_centered count_htmlEscape_apos (by decide)
        (count_slug_zero hslug (Or.inr (Or.inr (Or.inr (Or.inr (Or.inl rfl))))))
        title descs ps,
        (by decide : tplFixed.count apos = 4), (by decide : descBase.count apos = 0),
        (by decide : paraBase.count apos = 0),
        (by decide : ("project-steps centered-text".data : List Char).count apos = 0)]
      omega
    · exact count_render_amp_centered
        (count_slug_zero hslug (Or.inr (Or.inr (Or.inl rfl)))) title descs ps
    · intro c0 h0
      rw [render_entity_count h0 hslug title descs _ (some ps) none,
        stepsHtml_centered, countFrom_joinSep_sum paraLine (List.count c0)
          (fun b2 => countFrom_zero_of_headFree b2 (escapeChar_head h0) (by decide)) ps
          (fun p _ b2 => countFrom_paraLine_entity h0 p b2) tplA14]
      rfl

/-- Witness for C1 at a concrete input containing all five escapable
characters across title, descriptions and step paragraphs. -/
theorem render_escapes_user_text_witness :
    (∀ c ∈ "test".data, isSlugChar c = true)
    ∧ (renderChars "test".data "A&B<C>D\x22E\x27F".data
        ["P&Q".data, "R<S>T".data] "images".data none
        (some [["U\x22V".data], ["W\x27X&Y".data]])).count '&'
        = 5 * specials "A&B<C>D\x22E\x27F".data
          + 2 * sumSpec ["P&Q".data, "R<S>T".data]
          + sumSpec [["U\x22V".data], ["W\x27X&Y".data]].join
    ∧ countOcc (escapeChar '<')
        (renderChars "test".data "A&B<C>D\x22E\x27F".data
          ["P&Q".data, "R<S>T".data] "images".data none
          (some [["U\x22V".data], ["W\x27X&Y".data]]))
        = 5 * List.count '<' "A&B<C>D\x22E\x27F".data
          + 2 * sumCount '<' ["P&Q".data, "R<S>T".data]
          + sumCount '<' [["U\x22V".data], ["W\x27X&Y".data]].join :=
  ⟨by decide,
   ((render_escapes_user_text "test".data "A&B<C>D\x22E\x27F".data
      ["P&Q".data, "R<S>T".data] (by decide)).1
      [["U\x22V".data], ["W\x27X&Y".data]]).2.1,
   ((render_escapes_user_text "test".data "A&B<C>D\x22E\x27F".data
      ["P&Q".data, "R<S>T".data] (by decide)).1
      [["U\x22V".data], ["W\x27X&Y".data]]).2.2 '<' (by decide)⟩
